import Mathlib

/-!
Shallow embedding of the buddy memory allocator in
`src/C_C++/BuddyMemoryAlgorithm/buddy.c`, together with proofs about it.

Modelling conventions, fixed once for the whole file:

* Addresses are byte offsets from the arena base `g_memory` (the C code only
  ever uses `addr - g_memory`, never the absolute address, in its logic;
  `NULL` is modelled as `Option.none`).
* C `int` values are modelled as `Int`; the quantities that index arrays are
  `Nat` once the source has established they are nonnegative.
* The intrusive doubly-linked free lists of `list.h` are modelled as Lean
  lists of page indices, most recently added first: `list_add` inserts at the
  front, `list_del` removes the node from the (unique) list containing it,
  `list_empty` tests emptiness, `list_for_each_entry` scans front to back.
* Undefined behaviour of the C code (out-of-bounds array access, dereference
  through an uninitialized list head, division by zero, non-terminating
  loops) is modelled as `Option.none`; every function that can hit such
  behaviour returns an `Option`.  Loops whose termination depends on data
  are given explicit fuel; fuel exhaustion is `none` and lemmas below show
  the chosen fuel is large enough on all defined inputs.
* The arena bytes `g_memory` are carried as the field `mem` of the state so
  that the claims about the arena not being read or written can be stated;
  the page descriptor fields `addr` and `index` of `page_t` are set once by
  `buddy_init` to `PAGE_TO_ADDR i` and `i` and never mutated afterwards, so
  they are represented by those expressions rather than stored.
-/

/-- `#define MIN_ORDER 12` -/
def MIN_ORDER : Nat := 12

/-- `#define MAX_ORDER 20` -/
def MAX_ORDER : Nat := 20

/-- `#define PAGE_SIZE (1<<MIN_ORDER)` -/
def PAGE_SIZE : Nat := 2 ^ MIN_ORDER

/-- Number of entries of `g_pages`: `(1<<MAX_ORDER)/PAGE_SIZE`. -/
def NPAGES : Nat := 2 ^ MAX_ORDER / PAGE_SIZE

/-- `#define PAGE_TO_ADDR(page_idx) (void *)((page_idx*PAGE_SIZE) + g_memory)`
(as an offset from `g_memory`). -/
def PAGE_TO_ADDR (page_idx : Nat) : Nat := page_idx * PAGE_SIZE

/-- `#define ADDR_TO_PAGE(addr) ((unsigned long)((void *)addr - (void *)g_memory) / PAGE_SIZE)` -/
def ADDR_TO_PAGE (addr : Nat) : Nat := addr / PAGE_SIZE

/-- `#define BUDDY_ADDR(addr, o) (void *)((((unsigned long)addr - (unsigned long)g_memory) ^ (1<<o)) + (unsigned long)g_memory)` -/
def BUDDY_ADDR (addr : Nat) (o : Nat) : Nat := addr ^^^ 2 ^ o

/-- The global mutable state of the allocator: the `order` fields of the
`g_pages` page descriptor table, the `free_area` array of free lists (as
lists of page indices), and the arena bytes `g_memory`. -/
structure BuddyState where
  pageOrder : List Int
  freeArea : List (List Nat)
  mem : Nat → Nat

/-- Read `g_pages[i].order`. -/
def getPageOrder (s : BuddyState) (i : Nat) : Int := s.pageOrder.getD i (-1)

/-- Write `g_pages[i].order = v`. -/
def setOrder (i : Nat) (v : Int) (s : BuddyState) : BuddyState :=
  { s with pageOrder := s.pageOrder.set i v }

/-- Read the free list `free_area[o]` (as page indices, head first). -/
def getFL (fa : List (List Nat)) (o : Nat) : List Nat := fa.getD o []

/-- `list_add(&g_pages[i].list, &free_area[o])`: insert at the front. -/
def listAdd (i : Nat) (o : Nat) (s : BuddyState) : BuddyState :=
  { s with freeArea := s.freeArea.set o (i :: getFL s.freeArea o) }

/-- `list_del(&g_pages[i].list)`: unlink the node of page `i` from the list
containing it.  A page is a member of at most one free list at a time, so
this is modelled by erasing `i` from every free list. -/
def listDel (i : Nat) (s : BuddyState) : BuddyState :=
  { s with freeArea := s.freeArea.map (fun l => l.erase i) }

/-- `list_empty(&free_area[o])` for an `int` index `o`.  `buddy_init` only
initializes the heads for orders `MIN_ORDER..MAX_ORDER`; the heads below
`MIN_ORDER` stay zeroed (static storage), and a zeroed head has
`next == NULL != head`, so `list_empty` returns false on them. -/
def listEmptyAt (fa : List (List Nat)) (o : Int) : Bool :=
  if o < (MIN_ORDER : Int) then false
  else (getFL fa o.toNat).isEmpty

/-- The loop of `getOrder`:
`while (((1<<order) / size) < 1) { order++; }`.
`Int.tdiv` is C truncated division.  `1` and `order` are 32-bit signed
`int`s, so the shift `1 << order` is well defined only for
`0 ≤ order ≤ 30`; once `order` reaches `31` evaluating the loop test is
undefined behaviour (signed-shift overflow), modelled by `none`.  The fuel
bounds the number of iterations; `getOrderAux_nonpos` below shows that for
`size <= 0` the loop never produces a result at any fuel (for `size == 0`
every test divides by zero, also undefined behaviour in C), and
`getOrderAux_pos` shows the fuel used by `getOrder` suffices for every
positive `size ≤ 2^30`. -/
def getOrderAux (size : Int) (order : Nat) (fuel : Nat) : Option Nat :=
  match fuel with
  | 0 => none
  | f + 1 =>
    if 31 ≤ order then none
    else if Int.tdiv (2 ^ order) size < 1 then getOrderAux size (order + 1) f
    else some order

/-- `int getOrder(int size)` from buddy.c.  Returns `none` when the loop
does not terminate (or hits division by zero), `some (-1)` for the explicit
failure return, and `some order` otherwise. -/
def getOrder (size : Int) : Option Int :=
  match getOrderAux size MIN_ORDER (size.toNat + 32) with
  | none => none
  | some order => if (MAX_ORDER : Int) < order then some (-1) else some (order : Int)

/-- `void* splitBlock(struct list_head* head, int currentOrder, int endOrder,
int blockStartIndex)` from buddy.c.  The `head` parameter is unused by the
source (it always operates on the globals), so it is dropped.  Returns the
allocated address and the new state; `none` models the non-terminating
recursion the C code runs into when `endOrder > currentOrder` (the model
cuts it off when `currentOrder` reaches 0). -/
def splitBlock (s : BuddyState) (currentOrder endOrder blockStartIndex : Nat) :
    Option (Nat × BuddyState) :=
  if currentOrder = endOrder then
    -- Remove the block from the free list, i.e. "allocate" it
    some (PAGE_TO_ADDR blockStartIndex, listDel blockStartIndex s)
  else
    match currentOrder with
    | 0 => none
    | c + 1 =>
      let newOrder := c
      -- Build left block
      let s1 := setOrder blockStartIndex (newOrder : Int) s
      -- Build right block
      let rightBlockIndex := ADDR_TO_PAGE (BUDDY_ADDR (PAGE_TO_ADDR blockStartIndex) newOrder)
      let s2 := setOrder rightBlockIndex (newOrder : Int) s1
      -- Remove larger block from free list of currentOrder
      let s3 := listDel blockStartIndex s2
      -- Add new split blocks to free list of newOrder
      let s4 := listAdd rightBlockIndex newOrder s3
      let s5 := listAdd blockStartIndex newOrder s4
      -- Either split the left block again or allocate to it
      splitBlock s5 newOrder endOrder blockStartIndex

/-- `void buddy_init()` from buddy.c: every page order is set to `-1`, the
heads for orders `MIN_ORDER..MAX_ORDER` become empty lists, page 0 is added
to `free_area[MAX_ORDER]` and given order `MAX_ORDER`.  The arena is static
storage, hence zero bytes. -/
def buddy_init : BuddyState :=
  { pageOrder := (List.replicate NPAGES (-1)).set 0 (MAX_ORDER : Int)
    freeArea := (List.replicate (MAX_ORDER + 1) []).set MAX_ORDER [0]
    mem := fun _ => 0 }

/-- The scan loop of `buddy_alloc`:
`for (freeOrder = orderOfRequest; freeOrder <= MAX_ORDER; freeOrder++) ...`.
When every list from the start up to `MAX_ORDER` is empty the source sets
`freeOrder = -1` inside the body, but the `freeOrder++` of the `for` then
makes it `0` and the loop continues scanning from order 0, where the
uninitialized head of `free_area[0]` makes `list_empty` false and the loop
breaks.  The fuel only cuts off the (unreachable from reachable states)
case in which the loop cycles forever. -/
def allocScan (fa : List (List Nat)) (freeOrder : Int) (fuel : Nat) : Option Int :=
  match fuel with
  | 0 => none
  | f + 1 =>
    if freeOrder ≤ (MAX_ORDER : Int) then
      if listEmptyAt fa freeOrder = false then some freeOrder
      else if freeOrder = (MAX_ORDER : Int) then allocScan fa 0 f
      else allocScan fa (freeOrder + 1) f
    else some freeOrder

/-- `void *buddy_alloc(int size)` from buddy.c.  The outer `none` models a
call that does not return (crash or non-termination); `some (none, s)`
models `return NULL` with the state unchanged; `some (some a, s)` a
successful allocation.  `list_entry(free_area[freeOrder].next, ...)` on an
empty or uninitialized list misinterprets non-page memory as a `page_t`
(dereferencing `NULL` when the head is zeroed), which is undefined
behaviour, hence `none` in that case. -/
def buddy_alloc (size : Int) (s : BuddyState) : Option (Option Nat × BuddyState) :=
  match getOrder size with
  | none => none
  | some orderOfRequest =>
    -- Size of request is larger than MAX_ORDER
    if orderOfRequest < 0 then some (none, s)
    else
      match allocScan s.freeArea orderOfRequest 64 with
      | none => none
      | some freeOrder =>
        -- Size of request is larger than any available memory block
        if freeOrder < 0 then some (none, s)
        else
          match getFL s.freeArea freeOrder.toNat with
          | [] => none
          | i :: _ =>
            -- blockStartIndex = ADDR_TO_PAGE(list_entry(...)->addr) = i
            match splitBlock s freeOrder.toNat orderOfRequest.toNat i with
            | none => none
            | some (a, s') => some (some a, s')

/-- The body of `void buddy_free(void *addr)` from buddy.c for a non-NULL
address, with fuel bounding the recursion depth (the recursion strictly
increases the order of the freed page, so depth `MAX_ORDER - MIN_ORDER + 1`
suffices; fuel exhaustion is `none`).  Reading `free_area[order]` for an
order outside `MIN_ORDER..MAX_ORDER` is an out-of-bounds access or a scan
through an uninitialized head, i.e. undefined behaviour, hence `none`;
likewise `g_pages[ADDR_TO_PAGE(addr)]` out of bounds. -/
def buddy_freeAux : Nat → Nat → BuddyState → Option BuddyState
  | 0, _, _ => none
  | fuel + 1, addr, s =>
    let pageIdx := ADDR_TO_PAGE addr
    if pageIdx < NPAGES then
      let o := getPageOrder s pageIdx
      if (MIN_ORDER : Int) ≤ o ∧ o ≤ (MAX_ORDER : Int) then
        let oN := o.toNat
        if (getFL s.freeArea oN).isEmpty then
          -- Buddy is not free
          some (listAdd pageIdx oN s)
        else
          let buddyIdx := ADDR_TO_PAGE (BUDDY_ADDR (PAGE_TO_ADDR pageIdx) oN)
          -- Find the buddy: scan free_area[order] for a page whose addr
          -- equals BUDDY_ADDR; page addresses are PAGE_TO_ADDR of their
          -- index, so the match is exactly membership of buddyIdx.
          if (getFL s.freeArea oN).contains buddyIdx then
            let leftIdx := if buddyIdx < pageIdx then buddyIdx else pageIdx
            let rightIdx := if buddyIdx < pageIdx then pageIdx else buddyIdx
            -- Prep right block to be merged with the left block
            let s1 := setOrder rightIdx (-1) s
            -- Merge it with left block
            let s2 := setOrder leftIdx (getPageOrder s1 leftIdx + 1) s1
            -- Remove buddy from free list
            let s3 := listDel buddyIdx s2
            if getPageOrder s3 leftIdx ≤ (MAX_ORDER : Int) then
              -- See if the new larger block has its buddy free
              buddy_freeAux fuel (PAGE_TO_ADDR leftIdx) s3
            else some s3
          else
            -- Buddy is not free
            some (listAdd pageIdx oN s)
      else none
    else none

/-- `void buddy_free(void *addr)` from buddy.c; `none` is `NULL`. -/
def buddy_free (addr : Option Nat) (s : BuddyState) : Option BuddyState :=
  match addr with
  | none => some s
  | some a => buddy_freeAux 32 a s

/-- Replace the arena bytes of a state (used to state that the operations
neither read nor write `g_memory`). -/
def setMem (s : BuddyState) (m : Nat → Nat) : BuddyState := { s with mem := m }

/-- A client-visible call trace: `buddy_alloc` with a size, or `buddy_free`
of an address previously returned. -/
inductive Op where
  | alloc : Int → Op
  | free : Nat → Op

/-- Run a trace of calls from state `s`, keeping the list `out` of
outstanding (allocated and not yet freed) addresses.  A `free` of an
address that is not outstanding, or a call whose model hits undefined
behaviour, yields `none`. -/
def runOps : List Op → BuddyState → List Nat → Option (BuddyState × List Nat)
  | [], s, out => some (s, out)
  | Op.alloc sz :: rest, s, out =>
    match buddy_alloc sz s with
    | none => none
    | some (none, s') => runOps rest s' out
    | some (some a, s') => runOps rest s' (a :: out)
  | Op.free a :: rest, s, out =>
    if a ∈ out then
      match buddy_free (some a) s with
      | none => none
      | some s' => runOps rest s' (out.erase a)
    else none

/-! ### The allocator invariant

A reachable allocator state is described by a list `P` of blocks (page
index of the block head, order) that partition the arena, and the sublist
`F` of currently free blocks; `P` with `F` removed is the set of
currently allocated blocks. -/

/-- A block: head page index and order. -/
abbrev Block := Nat × Nat

/-- A legal block: order between `MIN_ORDER` and `MAX_ORDER`, head index
aligned to the block size (in pages), block inside the arena. -/
def goodBlock (b : Block) : Prop :=
  MIN_ORDER ≤ b.2 ∧ b.2 ≤ MAX_ORDER ∧ b.1 % 2 ^ (b.2 - MIN_ORDER) = 0 ∧
    b.1 + 2 ^ (b.2 - MIN_ORDER) ≤ NPAGES

/-- Block `b` covers page `j`. -/
def coversB (b : Block) (j : Nat) : Prop :=
  b.1 ≤ j ∧ j < b.1 + 2 ^ (b.2 - MIN_ORDER)

/-- The page ranges of two blocks do not intersect. -/
def blocksDisjoint (b b' : Block) : Prop :=
  b.1 + 2 ^ (b.2 - MIN_ORDER) ≤ b'.1 ∨ b'.1 + 2 ^ (b'.2 - MIN_ORDER) ≤ b.1

/-- The buddy of a block: same order, head index with bit
`order - MIN_ORDER` flipped (the page-index form of `BUDDY_ADDR`). -/
def buddyOf (b : Block) : Block := (b.1 ^^^ 2 ^ (b.2 - MIN_ORDER), b.2)

/-- Structural invariant tying a state to a partition `P` and free set `F`:
table lengths are fixed; `P` consists of legal pairwise-disjoint blocks
covering every page; `F` is a duplicate-free sublist of `P`; the head page
of every block stores the block order and interior pages store `-1`; the
free list of each order holds exactly the head indices of the free blocks
of that order, without duplicates. -/
def InvCore (s : BuddyState) (P F : List Block) : Prop :=
  s.pageOrder.length = NPAGES ∧
  s.freeArea.length = MAX_ORDER + 1 ∧
  (∀ b ∈ P, goodBlock b) ∧
  (∀ j, j < NPAGES → ∃ b ∈ P, coversB b j) ∧
  P.Pairwise blocksDisjoint ∧
  F.Nodup ∧
  (∀ b ∈ F, b ∈ P) ∧
  (∀ b ∈ P, getPageOrder s b.1 = (b.2 : Int) ∧
    ∀ j, j < b.1 + 2 ^ (b.2 - MIN_ORDER) → b.1 < j → getPageOrder s j = -1) ∧
  (∀ o, o ≤ MAX_ORDER → (getFL s.freeArea o).Nodup ∧
    (∀ i ∈ getFL s.freeArea o, (i, o) ∈ F) ∧
    (∀ b ∈ F, b.2 = o → b.1 ∈ getFL s.freeArea o))

/-- No two free blocks are buddies of each other. -/
def NoBuddyPair (F : List Block) : Prop := ∀ b ∈ F, buddyOf b ∉ F

/-- The full invariant of reachable allocator states. -/
def InvState (s : BuddyState) (P F : List Block) : Prop :=
  InvCore s P F ∧ NoBuddyPair F

/-- Weakening of `NoBuddyPair` used through the `splitBlock` recursion: the
only free buddy pair allowed is the pair of halves of the block at `i`
currently being split at order `cur`. -/
def NoBuddyPairExcept (F : List Block) (i cur : Nat) : Prop :=
  ∀ b ∈ F, buddyOf b ∈ F → b.2 = cur ∧ (b.1 = i ∨ b.1 = i ^^^ 2 ^ (cur - MIN_ORDER))

/-- Direct statement on a state that no order's free list simultaneously
holds a block and its buddy. -/
def NoFreeBuddies (s : BuddyState) : Prop :=
  ∀ o, MIN_ORDER ≤ o → o ≤ MAX_ORDER → ∀ i ∈ getFL s.freeArea o,
    (i ^^^ 2 ^ (o - MIN_ORDER)) ∉ getFL s.freeArea o

instance (b : Block) : Decidable (goodBlock b) := by unfold goodBlock; infer_instance

instance (b : Block) (j : Nat) : Decidable (coversB b j) := by unfold coversB; infer_instance

instance (b b' : Block) : Decidable (blocksDisjoint b b') := by
  unfold blocksDisjoint; infer_instance

instance (s : BuddyState) (P F : List Block) : Decidable (InvCore s P F) := by
  unfold InvCore; infer_instance

instance (F : List Block) : Decidable (NoBuddyPair F) := by
  unfold NoBuddyPair; infer_instance

instance (s : BuddyState) (P F : List Block) : Decidable (InvState s P F) := by
  unfold InvState; infer_instance

instance (F : List Block) (i cur : Nat) : Decidable (NoBuddyPairExcept F i cur) := by
  unfold NoBuddyPairExcept; infer_instance

instance (s : BuddyState) : Decidable (NoFreeBuddies s) := by
  unfold NoFreeBuddies; infer_instance

/-! ### Concrete runs used as witnesses -/

/-- Address returned by `buddy_alloc(5000)` on the fresh arena. -/
def a5000 : Nat :=
  match buddy_alloc 5000 buddy_init with
  | some (some a, _) => a
  | _ => 0

/-- State after `buddy_alloc(5000)` on the fresh arena. -/
def s5000 : BuddyState :=
  match buddy_alloc 5000 buddy_init with
  | some (_, s) => s
  | _ => buddy_init

/-- State after `buddy_alloc(1 << MAX_ORDER)` on the fresh arena. -/
def sAfterBig : BuddyState :=
  match buddy_alloc (2 ^ MAX_ORDER) buddy_init with
  | some (_, s) => s
  | _ => buddy_init

/-- State after two `buddy_alloc(4096)` calls on the fresh arena. -/
def sTwo : BuddyState :=
  match runOps [Op.alloc 4096, Op.alloc 4096] buddy_init [] with
  | some (s, _) => s
  | _ => buddy_init

/-- Result of `buddy_alloc(4096)` on the fresh arena. -/
def r4096 : Option Nat × BuddyState :=
  match buddy_alloc 4096 buddy_init with
  | some r => r
  | none => (none, buddy_init)

/-- Final state and outstanding list of the round trip
`buddy_alloc(5000); buddy_free(the returned address)` on the fresh arena
(the address returned is offset `0`). -/
def sRT : BuddyState × List Nat :=
  match runOps [Op.alloc 5000, Op.free 0] buddy_init [] with
  | some r => r
  | none => (buddy_init, [])

/-! ### Basic lemmas about the state operations -/

theorem getPageOrder_setOrder_self {s : BuddyState} {i : Nat} (v : Int)
    (h : i < s.pageOrder.length) : getPageOrder (setOrder i v s) i = v := by
  simp [getPageOrder, setOrder, List.getD_eq_getElem?_getD, List.getElem?_set_self h]

theorem getPageOrder_setOrder_ne {s : BuddyState} {i j : Nat} (v : Int) (h : i ≠ j) :
    getPageOrder (setOrder i v s) j = getPageOrder s j := by
  simp [getPageOrder, setOrder, List.getD_eq_getElem?_getD, List.getElem?_set_ne h]

theorem pageOrder_length_setOrder (s : BuddyState) (i : Nat) (v : Int) :
    (setOrder i v s).pageOrder.length = s.pageOrder.length := by
  simp [setOrder]

theorem freeArea_setOrder (s : BuddyState) (i : Nat) (v : Int) :
    (setOrder i v s).freeArea = s.freeArea := rfl

theorem pageOrder_listAdd (s : BuddyState) (i o : Nat) :
    (listAdd i o s).pageOrder = s.pageOrder := rfl

theorem pageOrder_listDel (s : BuddyState) (i : Nat) :
    (listDel i s).pageOrder = s.pageOrder := rfl

theorem mem_setOrder_eq (s : BuddyState) (i : Nat) (v : Int) :
    (setOrder i v s).mem = s.mem := rfl

theorem mem_listAdd_eq (s : BuddyState) (i o : Nat) : (listAdd i o s).mem = s.mem := rfl

theorem mem_listDel_eq (s : BuddyState) (i : Nat) : (listDel i s).mem = s.mem := rfl

theorem getFL_listDel (s : BuddyState) (i o : Nat) :
    getFL (listDel i s).freeArea o = (getFL s.freeArea o).erase i := by
  simp only [listDel, getFL, List.getD_eq_getElem?_getD, List.getElem?_map]
  cases s.freeArea[o]? <;> simp

theorem getFL_listAdd_self {s : BuddyState} {o : Nat} (i : Nat)
    (h : o < s.freeArea.length) :
    getFL (listAdd i o s).freeArea o = i :: getFL s.freeArea o := by
  simp [listAdd, getFL, List.getD_eq_getElem?_getD, List.getElem?_set_self h]

theorem getFL_listAdd_ne {o o' : Nat} (s : BuddyState) (i : Nat) (h : o ≠ o') :
    getFL (listAdd i o s).freeArea o' = getFL s.freeArea o' := by
  simp [listAdd, getFL, List.getD_eq_getElem?_getD, List.getElem?_set_ne h]

theorem freeArea_length_listAdd (s : BuddyState) (i o : Nat) :
    (listAdd i o s).freeArea.length = s.freeArea.length := by
  simp [listAdd]

theorem freeArea_length_listDel (s : BuddyState) (i : Nat) :
    (listDel i s).freeArea.length = s.freeArea.length := by
  simp [listDel]

theorem getFL_of_length_le {fa : List (List Nat)} {o : Nat} (h : fa.length ≤ o) :
    getFL fa o = [] := by
  simp [getFL, List.getD_eq_getElem?_getD, List.getElem?_eq_none h]

/-! ### The getOrder loop -/

theorem tdiv_pow_lt_one_iff (o : Nat) {size : Int} (h : 1 ≤ size) :
    (Int.tdiv (2 ^ o) size < 1 ↔ (2 : Int) ^ o < size) := by
  lift size to Nat using (by omega : (0 : Int) ≤ size)
  have hn : 0 < size := by exact_mod_cast h
  have h2 : ((2 : Int) ^ o) = ((2 ^ o : Nat) : Int) := by push_cast; ring
  rw [h2]
  have : Int.tdiv ((2 ^ o : Nat) : Int) (size : Int) = ((2 ^ o / size : Nat) : Int) := rfl
  rw [this]
  constructor
  · intro hlt
    have h1 : (2 ^ o / size : Nat) < 1 := by exact_mod_cast hlt
    have h1' : (2 ^ o / size : Nat) = 0 := Nat.lt_one_iff.mp h1
    exact_mod_cast (Nat.div_eq_zero_iff hn).mp h1'
  · intro hlt
    have hlt' : (2 ^ o : Nat) < size := by exact_mod_cast hlt
    have h0 : (2 ^ o / size : Nat) = 0 := Nat.div_eq_of_lt hlt'
    rw [h0]
    exact_mod_cast Nat.zero_lt_one

theorem tdiv_pow_lt_one_of_nonpos (o : Nat) {size : Int} (h : size ≤ 0) :
    Int.tdiv (2 ^ o) size < 1 := by
  have hnp : Int.tdiv (2 ^ o) size ≤ 0 :=
    Int.tdiv_nonpos (by positivity) h
  omega

theorem getOrderAux_nonpos {size : Int} (h : size ≤ 0) :
    ∀ (fuel order : Nat), getOrderAux size order fuel = none := by
  intro fuel
  induction fuel with
  | zero => intro order; rfl
  | succ f ih =>
    intro order
    by_cases h31 : 31 ≤ order
    · simp only [getOrderAux, if_pos h31]
    · simp only [getOrderAux, if_neg h31, if_pos (tdiv_pow_lt_one_of_nonpos order h)]
      exact ih (order + 1)

theorem getOrderAux_pos {size : Int} (h : 1 ≤ size) (h30 : size ≤ 2 ^ 30) :
    ∀ (f order : Nat), order ≤ 30 → size ≤ 2 ^ (order + f) →
      ∃ o : Nat, getOrderAux size order (f + 1) = some o ∧ order ≤ o ∧ size ≤ 2 ^ o ∧
        ∀ k : Nat, order ≤ k → size ≤ 2 ^ k → o ≤ k := by
  intro f
  induction f with
  | zero =>
    intro order ho30 hle
    refine ⟨order, ?_, le_refl _, by simpa using hle, fun k hk _ => hk⟩
    simp only [getOrderAux]
    rw [if_neg (show ¬ 31 ≤ order by omega), if_neg]
    rw [tdiv_pow_lt_one_iff order h]
    simpa using hle
  | succ f ih =>
    intro order ho30 hle
    by_cases hord : size ≤ 2 ^ order
    · refine ⟨order, ?_, le_refl _, hord, fun k hk _ => hk⟩
      simp only [getOrderAux]
      rw [if_neg (show ¬ 31 ≤ order by omega), if_neg]
      rw [tdiv_pow_lt_one_iff order h]
      omega
    · have hcond : Int.tdiv (2 ^ order) size < 1 := by
        rw [tdiv_pow_lt_one_iff order h]; omega
      have hstep : getOrderAux size order (f + 1 + 1) = getOrderAux size (order + 1) (f + 1) := by
        simp only [getOrderAux, if_neg (show ¬ 31 ≤ order by omega), if_pos hcond]
      have hnext : order + 1 ≤ 30 := by
        by_contra hgt
        have hord30 : order = 30 := by omega
        rw [hord30] at hord
        exact hord h30
      obtain ⟨o, heq, hge, hub, hmin⟩ := ih (order + 1) hnext (by
        have hco : order + 1 + f = order + (f + 1) := by omega
        rw [hco]; exact hle)
      refine ⟨o, by rw [hstep]; exact heq, by omega, hub, ?_⟩
      intro k hk hsk
      rcases Nat.eq_or_lt_of_le hk with hEq | hLt
      · exfalso; rw [← hEq] at hsk; exact hord hsk
      · exact hmin k (by omega) hsk

theorem getOrder_pos {size : Int} (h : 1 ≤ size) (h30 : size ≤ 2 ^ 30) :
    ∃ o : Nat, MIN_ORDER ≤ o ∧ size ≤ 2 ^ o ∧
      (∀ k : Nat, MIN_ORDER ≤ k → size ≤ 2 ^ k → o ≤ k) ∧
      getOrder size =
        (if (MAX_ORDER : Int) < (o : Int) then some (-1) else some (o : Int)) := by
  have hfuel : size ≤ 2 ^ (MIN_ORDER + (size.toNat + 31)) := by
    have h1 : size = (size.toNat : Int) := (Int.toNat_of_nonneg (by omega)).symm
    rw [h1]
    have h2 : size.toNat < 2 ^ size.toNat := Nat.lt_two_pow size.toNat
    have h3 : (2 : Nat) ^ size.toNat ≤ 2 ^ (MIN_ORDER + (size.toNat + 31)) :=
      Nat.pow_le_pow_right (by omega) (by omega)
    exact_mod_cast le_of_lt (lt_of_lt_of_le h2 h3)
  obtain ⟨o, heq, hge, hub, hmin⟩ :=
    getOrderAux_pos h h30 (size.toNat + 31) MIN_ORDER (by decide) hfuel
  refine ⟨o, hge, hub, hmin, ?_⟩
  unfold getOrder
  have : size.toNat + 32 = (size.toNat + 31) + 1 := by omega
  rw [this, heq]

/-! ### Buddy index arithmetic

The page indices are below `NPAGES = 256` and the bit positions involved
are below 9, so the required xor facts are decided by enumeration. -/

set_option maxRecDepth 10000 in
theorem xor_facts : ∀ k, k < 9 → ∀ i, i < 256 → i % 2 ^ k = 0 →
    ((i ^^^ 2 ^ k) % 2 ^ k = 0 ∧ (i ^^^ 2 ^ k) ^^^ 2 ^ k = i ∧ i ^^^ 2 ^ k ≠ i ∧
     (i % 2 ^ (k + 1) = 0 → i ^^^ 2 ^ k = i + 2 ^ k)) := by decide

set_option maxRecDepth 10000 in
theorem xor_facts_odd : ∀ k, k < 9 → ∀ i, i < 256 → i % 2 ^ k = 0 → i % 2 ^ (k + 1) ≠ 0 →
    ((i ^^^ 2 ^ k) % 2 ^ (k + 1) = 0 ∧ (i ^^^ 2 ^ k) + 2 ^ k = i) := by decide

set_option maxRecDepth 10000 in
theorem xor_in_range : ∀ k, k < 8 → ∀ i, i < 256 → i % 2 ^ k = 0 →
    (i ^^^ 2 ^ k) + 2 ^ k ≤ 256 := by decide

set_option maxRecDepth 10000 in
theorem addr_buddy_idx : ∀ o, o < 21 → 12 ≤ o → ∀ i, i < 256 →
    ADDR_TO_PAGE (BUDDY_ADDR (PAGE_TO_ADDR i) o) = i ^^^ 2 ^ (o - 12) := by decide

/-- Summary form of the two halves of a buddy pair: for an aligned index
`i`, the pair `{i, i ^^^ 2^k}` is `{L, L + 2^k}` with `L` aligned to
`2^(k+1)`. -/
theorem buddy_pair_shape {k i : Nat} (hk : k < 9) (hi : i < 256) (ha : i % 2 ^ k = 0) :
    (min i (i ^^^ 2 ^ k)) % 2 ^ (k + 1) = 0 ∧
      max i (i ^^^ 2 ^ k) = (min i (i ^^^ 2 ^ k)) + 2 ^ k := by
  by_cases h : i % 2 ^ (k + 1) = 0
  · have hx := (xor_facts k hk i hi ha).2.2.2 h
    have : i < i ^^^ 2 ^ k := by
      have h2 : 0 < 2 ^ k := Nat.pos_pow_of_pos k (by omega)
      omega
    rw [min_eq_left (le_of_lt this), max_eq_right (le_of_lt this)]
    exact ⟨h, hx⟩
  · have hx := xor_facts_odd k hk i hi ha h
    have : i ^^^ 2 ^ k < i := by
      have h2 : 0 < 2 ^ k := Nat.pos_pow_of_pos k (by omega)
      omega
    rw [min_eq_right (le_of_lt this), max_eq_left (le_of_lt this)]
    exact ⟨hx.1, hx.2.symm⟩

/-- Nesting of aligned intervals: if two aligned power-of-two ranges share
a point, the smaller one is contained in the larger one. -/
theorem aligned_nest {i k i' k' j : Nat} (hk : k ≤ k') (ha : i % 2 ^ k = 0)
    (ha' : i' % 2 ^ k' = 0) (h1 : i ≤ j) (h2 : j < i + 2 ^ k)
    (h1' : i' ≤ j) (h2' : j < i' + 2 ^ k') :
    i' ≤ i ∧ i + 2 ^ k ≤ i' + 2 ^ k' := by
  obtain ⟨a, hia⟩ := Nat.dvd_of_mod_eq_zero ha
  obtain ⟨a', hia'⟩ := Nat.dvd_of_mod_eq_zero ha'
  have hdiva : j / 2 ^ k = a :=
    Nat.div_eq_of_lt_le (by rw [mul_comm]; omega)
      (by rw [add_mul, one_mul, mul_comm a (2 ^ k)]; omega)
  have hdiva' : j / 2 ^ k' = a' :=
    Nat.div_eq_of_lt_le (by rw [mul_comm]; omega)
      (by rw [add_mul, one_mul, mul_comm a' (2 ^ k')]; omega)
  set m := 2 ^ (k' - k) with hm
  have hmpos : 0 < m := Nat.pos_pow_of_pos _ (by omega)
  have hkk : (2 : Nat) ^ k' = 2 ^ k * m := by
    rw [hm, ← pow_add]; congr 1; omega
  have hstep : a' = a / m := by
    rw [← hdiva', ← hdiva, Nat.div_div_eq_div_mul, ← hkk]
  have hdm := Nat.div_add_mod a m
  have hml := Nat.mod_lt a hmpos
  constructor
  · rw [hia, hia', hstep, hkk, mul_assoc]
    exact Nat.mul_le_mul_left _ (by
      calc m * (a / m) ≤ m * (a / m) + a % m := Nat.le_add_right _ _
        _ = a := by omega)
  · rw [hia, hia', hstep, hkk, mul_assoc]
    have h1ml : a + 1 ≤ m * (a / m) + m := by omega
    calc 2 ^ k * a + 2 ^ k = 2 ^ k * (a + 1) := by ring
      _ ≤ 2 ^ k * (m * (a / m) + m) := Nat.mul_le_mul_left _ h1ml
      _ = 2 ^ k * (m * (a / m)) + 2 ^ k * m := by ring

/-- Nesting at the block level. -/
theorem covers_nest {b b' : Block} (hg : goodBlock b) (hg' : goodBlock b')
    (h2 : b.2 ≤ b'.2) {j : Nat} (hc : coversB b j) (hc' : coversB b' j) :
    b'.1 ≤ b.1 ∧ b.1 + 2 ^ (b.2 - MIN_ORDER) ≤ b'.1 + 2 ^ (b'.2 - MIN_ORDER) := by
  obtain ⟨hA, hB, hC, hD⟩ := hg
  obtain ⟨hA', hB', hC', hD'⟩ := hg'
  exact aligned_nest (Nat.sub_le_sub_right h2 _) hC hC' hc.1 hc.2 hc'.1 hc'.2

/-! ### Consequences of the invariant -/

theorem blocksDisjoint_symm : Symmetric blocksDisjoint := by
  intro b b' h
  unfold blocksDisjoint at *
  omega

theorem InvCore.lenPO {s P F} (h : InvCore s P F) : s.pageOrder.length = NPAGES := h.1

theorem InvCore.lenFA {s P F} (h : InvCore s P F) : s.freeArea.length = MAX_ORDER + 1 :=
  h.2.1

theorem InvCore.good {s P F} (h : InvCore s P F) : ∀ b ∈ P, goodBlock b := h.2.2.1

theorem InvCore.cover {s P F} (h : InvCore s P F) :
    ∀ j, j < NPAGES → ∃ b ∈ P, coversB b j := h.2.2.2.1

theorem InvCore.disj {s P F} (h : InvCore s P F) : P.Pairwise blocksDisjoint :=
  h.2.2.2.2.1

theorem InvCore.nodupF {s P F} (h : InvCore s P F) : F.Nodup := h.2.2.2.2.2.1

theorem InvCore.sub {s P F} (h : InvCore s P F) : ∀ b ∈ F, b ∈ P := h.2.2.2.2.2.2.1

theorem InvCore.ords {s P F} (h : InvCore s P F) :
    ∀ b ∈ P, getPageOrder s b.1 = (b.2 : Int) ∧
      ∀ j, j < b.1 + 2 ^ (b.2 - MIN_ORDER) → b.1 < j → getPageOrder s j = -1 :=
  h.2.2.2.2.2.2.2.1

theorem InvCore.lists {s P F} (h : InvCore s P F) :
    ∀ o, o ≤ MAX_ORDER → (getFL s.freeArea o).Nodup ∧
      (∀ i ∈ getFL s.freeArea o, (i, o) ∈ F) ∧
      (∀ b ∈ F, b.2 = o → b.1 ∈ getFL s.freeArea o) :=
  h.2.2.2.2.2.2.2.2

theorem InvCore.nodupP {s P F} (h : InvCore s P F) : P.Nodup := by
  refine h.disj.imp ?_
  intro b b' hd
  intro hEq
  subst hEq
  have hp : 0 < 2 ^ (b.2 - MIN_ORDER) := Nat.pos_pow_of_pos _ (by omega)
  unfold blocksDisjoint at hd
  omega

theorem InvCore.disj_of_ne {s P F} (h : InvCore s P F) {b b' : Block}
    (hb : b ∈ P) (hb' : b' ∈ P) (hne : b ≠ b') : blocksDisjoint b b' :=
  List.Pairwise.forall blocksDisjoint_symm h.disj hb hb' hne

theorem InvCore.cover_unique {s P F} (h : InvCore s P F) {b b' : Block} {j : Nat}
    (hb : b ∈ P) (hb' : b' ∈ P) (hc : coversB b j) (hc' : coversB b' j) : b = b' := by
  by_contra hne
  have hd := h.disj_of_ne hb hb' hne
  unfold blocksDisjoint at hd
  unfold coversB at hc hc'
  omega

theorem coversB_self {b : Block} : coversB b b.1 := by
  constructor
  · exact le_refl _
  · have : 0 < 2 ^ (b.2 - MIN_ORDER) := Nat.pos_pow_of_pos _ (by omega)
    omega

theorem InvCore.head_unique {s P F} (h : InvCore s P F) {b b' : Block}
    (hb : b ∈ P) (hb' : b' ∈ P) (hh : b.1 = b'.1) : b = b' := by
  refine h.cover_unique hb hb' coversB_self ?_
  rw [hh]
  exact coversB_self

theorem InvCore.headP_lt {s P F} (h : InvCore s P F) {b : Block} (hb : b ∈ P) :
    b.1 < NPAGES := by
  have hg := h.good b hb
  have : 0 < 2 ^ (b.2 - MIN_ORDER) := Nat.pos_pow_of_pos _ (by omega)
  obtain ⟨-, -, -, h4⟩ := hg
  omega

theorem InvCore.flist_iff {s P F} (h : InvCore s P F) {o : Nat} (ho : o ≤ MAX_ORDER)
    {i : Nat} : i ∈ getFL s.freeArea o ↔ (i, o) ∈ F :=
  ⟨fun hm => (h.lists o ho).2.1 i hm, fun hm => (h.lists o ho).2.2 (i, o) hm rfl⟩

theorem InvCore.interior_not_head {s P F} (h : InvCore s P F) {b : Block} (hb : b ∈ P)
    {j : Nat} (hcov : coversB b j) (hne : j ≠ b.1) : ∀ o'', (j, o'') ∉ P := by
  intro o'' hmem
  have heq := h.cover_unique hmem hb coversB_self hcov
  exact hne (by rw [← heq])

theorem InvCore.headF_unique {s P F} (h : InvCore s P F) {i : Nat} {o o' : Nat}
    (h1 : (i, o) ∈ F) (h2 : (i, o') ∈ P) : o = o' := by
  have := h.head_unique (h.sub _ h1) h2 rfl
  injection this with h3 h4


/-- Effect of one recursive step of `splitBlock` on the partition and the
free set: the block `(i, c+1)` at the head of the recursion is replaced by
its two halves `(i, c)` and `(r, c)`, both free, and the weakened
no-buddy-pair condition moves down to order `c`. -/
theorem split_one_step {s : BuddyState} {P F : List Block} {i c r : Nat} {σ : BuddyState}
    (hI : InvCore s P F) (hE : NoBuddyPairExcept F i (c + 1)) (hiF : (i, c + 1) ∈ F)
    (hc12 : MIN_ORDER ≤ c)
    (hr : r = i ^^^ 2 ^ (c - MIN_ORDER))
    (hσ : σ = listAdd i c (listAdd r c (listDel i (setOrder r (c : Int) (setOrder i (c : Int) s))))) :
    InvCore σ ((i, c) :: (r, c) :: P.erase (i, c + 1)) ((i, c) :: (r, c) :: F.erase (i, c + 1)) ∧
      NoBuddyPairExcept ((i, c) :: (r, c) :: F.erase (i, c + 1)) i c := by
  have hM : MIN_ORDER = 12 := rfl
  have hX : MAX_ORDER = 20 := rfl
  have hNP : NPAGES = 256 := rfl
  have hiP : (i, c + 1) ∈ P := hI.sub _ hiF
  obtain ⟨hg1, hg2, hg3, hg4⟩ := hI.good _ hiP
  simp only at hg1 hg2 hg3 hg4
  set k := c - MIN_ORDER with hk
  have hck : c + 1 - MIN_ORDER = k + 1 := by omega
  rw [hck] at hg3 hg4
  have hklt : k < 9 := by omega
  have hpow : (2 : Nat) ^ (k + 1) = 2 ^ k + 2 ^ k := by rw [pow_succ]; ring
  have hpos : 0 < (2 : Nat) ^ k := Nat.pos_pow_of_pos _ (by omega)
  have hiN : i < NPAGES := hI.headP_lt hiP
  have hiN' : i < 256 := by omega
  have hal : i % 2 ^ k = 0 :=
    Nat.mod_eq_zero_of_dvd (dvd_trans (pow_dvd_pow 2 (by omega)) (Nat.dvd_of_mod_eq_zero hg3))
  have hxf := xor_facts k hklt i hiN' hal
  have hreq : r = i + 2 ^ k := by rw [hr]; exact hxf.2.2.2 hg3
  have hrne : r ≠ i := by rw [hr]; exact hxf.2.2.1
  have hral : r % 2 ^ k = 0 := by rw [hr]; exact hxf.1
  have hrN : r + 2 ^ k ≤ NPAGES := by omega
  have hrN' : r < NPAGES := by omega
  -- involution of the buddy map at a legal block
  have hinv : ∀ b : Block, b ∈ P → buddyOf (buddyOf b) = b := by
    intro b hbP
    obtain ⟨x, o⟩ := b
    obtain ⟨hA, hB, hC, hD⟩ := hI.good _ hbP
    simp only at hA hB hC hD
    have hx256 : x < 256 := by
      have := hI.headP_lt hbP
      omega
    have hko : o - MIN_ORDER < 9 := by omega
    unfold buddyOf
    simp only
    rw [(xor_facts _ hko _ hx256 hC).2.1]
  -- the old block covers both halves
  have hcov_r : coversB (i, c + 1) r := by
    show i ≤ r ∧ r < i + 2 ^ (c + 1 - MIN_ORDER)
    rw [hck]
    omega
  -- interior pages of the old block store -1
  have hint_old : ∀ j, j < i + 2 ^ (k + 1) → i < j → getPageOrder s j = -1 := by
    intro j h1 h2
    refine (hI.ords _ hiP).2 j ?_ h2
    show j < i + 2 ^ (c + 1 - MIN_ORDER)
    rw [hck]
    exact h1
  -- no block of P other than (i, c+1) has head i, and none has head r
  have hhead_i : ∀ o'', (i, o'') ∈ P → o'' = c + 1 := by
    intro o'' hmem
    have := hI.head_unique hmem hiP rfl
    injection this with h1 h2
  have hhead_r : ∀ o'', (r, o'') ∉ P := by
    intro o''
    exact hI.interior_not_head hiP hcov_r (by show r ≠ i; omega) o''
  have hPnodup := hI.nodupP
  have hFnodup := hI.nodupF
  have hmemPerase : ∀ b : Block, b ∈ P.erase (i, c + 1) ↔ b ≠ (i, c + 1) ∧ b ∈ P :=
    fun b => hPnodup.mem_erase_iff
  have hmemFerase : ∀ b : Block, b ∈ F.erase (i, c + 1) ↔ b ≠ (i, c + 1) ∧ b ∈ F :=
    fun b => hFnodup.mem_erase_iff
  have hicF : (i, c) ∉ F := by
    intro hmem
    have := hhead_i c (hI.sub _ hmem)
    omega
  have hrF : ∀ o'', (r, o'') ∉ F := fun o'' hmem => hhead_r o'' (hI.sub _ hmem)
  -- every block other than (i, c+1) avoids the range of (i, c+1)
  have hdisj_old : ∀ b ∈ P, b ≠ (i, c + 1) →
      b.1 + 2 ^ (b.2 - MIN_ORDER) ≤ i ∨ i + 2 ^ (k + 1) ≤ b.1 := by
    intro b hb hne
    have hd := hI.disj_of_ne hb hiP hne
    unfold blocksDisjoint at hd
    simp only [hck] at hd
    exact hd
  -- the page table of σ
  have hpo_i : getPageOrder σ i = (c : Int) := by
    rw [hσ]
    show getPageOrder (setOrder r (c : Int) (setOrder i (c : Int) s)) i = (c : Int)
    rw [getPageOrder_setOrder_ne _ hrne,
      getPageOrder_setOrder_self _ (by rw [hI.lenPO]; exact hiN)]
  have hpo_r : getPageOrder σ r = (c : Int) := by
    rw [hσ]
    show getPageOrder (setOrder r (c : Int) (setOrder i (c : Int) s)) r = (c : Int)
    rw [getPageOrder_setOrder_self _ (by
      simp only [pageOrder_length_setOrder, hI.lenPO]; exact hrN')]
  have hpo_other : ∀ j, j ≠ i → j ≠ r → getPageOrder σ j = getPageOrder s j := by
    intro j hji hjr
    rw [hσ]
    show getPageOrder (setOrder r (c : Int) (setOrder i (c : Int) s)) j = getPageOrder s j
    rw [getPageOrder_setOrder_ne _ (fun h => hjr h.symm),
      getPageOrder_setOrder_ne _ (fun h => hji h.symm)]
  -- the free lists of σ
  have hfl_c : getFL σ.freeArea c = i :: r :: (getFL s.freeArea c).erase i := by
    rw [hσ]
    rw [getFL_listAdd_self i (by
      simp only [freeArea_length_listAdd, freeArea_length_listDel, freeArea_setOrder, hI.lenFA]
      omega)]
    rw [getFL_listAdd_self r (by
      simp only [freeArea_length_listDel, freeArea_setOrder, hI.lenFA]
      omega)]
    rw [getFL_listDel]
    rfl
  have hfl_other : ∀ o'', o'' ≠ c → getFL σ.freeArea o'' = (getFL s.freeArea o'').erase i := by
    intro o'' hne
    rw [hσ]
    rw [getFL_listAdd_ne _ _ (fun h => hne h.symm), getFL_listAdd_ne _ _ (fun h => hne h.symm),
      getFL_listDel]
    rfl
  have hiFL : ∀ o'', o'' ≤ MAX_ORDER → o'' ≠ c + 1 → i ∉ getFL s.freeArea o'' := by
    intro o'' ho'' hne hmem
    exact hne (hhead_i o'' (hI.sub _ ((hI.flist_iff ho'').mp hmem)))
  have hrFL : ∀ o'', o'' ≤ MAX_ORDER → r ∉ getFL s.freeArea o'' := by
    intro o'' ho'' hmem
    exact hrF o'' ((hI.flist_iff ho'').mp hmem)
  refine ⟨⟨?_, ?_, ?_, ?_, ?_, ?_, ?_, ?_, ?_⟩, ?_⟩
  · -- page table length
    rw [hσ]
    show ((s.pageOrder.set i (c : Int)).set r (c : Int)).length = NPAGES
    simp only [List.length_set]
    exact hI.lenPO
  · -- free area length
    rw [hσ]
    simp only [freeArea_length_listAdd, freeArea_length_listDel, freeArea_setOrder]
    exact hI.lenFA
  · -- all blocks are good
    intro b hb
    rcases List.mem_cons.mp hb with rfl | hb
    · exact ⟨hc12, by omega, hal, by show i + 2 ^ k ≤ NPAGES; omega⟩
    rcases List.mem_cons.mp hb with rfl | hb
    · exact ⟨hc12, by omega, hral, by show r + 2 ^ k ≤ NPAGES; omega⟩
    · exact hI.good b ((hmemPerase b).mp hb).2
  · -- coverage
    intro j hj
    obtain ⟨b, hb, hcov⟩ := hI.cover j hj
    by_cases hbe : b = (i, c + 1)
    · subst hbe
      have hcov' : i ≤ j ∧ j < i + 2 ^ (c + 1 - MIN_ORDER) := hcov
      rw [hck] at hcov'
      by_cases hjl : j < i + 2 ^ k
      · refine ⟨(i, c), List.mem_cons_self _ _, ?_⟩
        show i ≤ j ∧ j < i + 2 ^ k
        omega
      · refine ⟨(r, c), List.mem_cons.mpr (Or.inr (List.mem_cons_self _ _)), ?_⟩
        show r ≤ j ∧ j < r + 2 ^ k
        omega
    · refine ⟨b, ?_, hcov⟩
      simp only [List.mem_cons]
      exact Or.inr (Or.inr ((hmemPerase b).mpr ⟨hbe, hb⟩))
  · -- pairwise disjoint
    refine List.pairwise_cons.mpr ⟨?_, List.pairwise_cons.mpr ⟨?_, ?_⟩⟩
    · intro b hb
      rcases List.mem_cons.mp hb with rfl | hb
      · show i + 2 ^ k ≤ r ∨ r + 2 ^ k ≤ i
        omega
      · obtain ⟨hne, hbP⟩ := (hmemPerase b).mp hb
        have := hdisj_old b hbP hne
        show i + 2 ^ k ≤ b.1 ∨ b.1 + 2 ^ (b.2 - MIN_ORDER) ≤ i
        omega
    · intro b hb
      obtain ⟨hne, hbP⟩ := (hmemPerase b).mp hb
      have := hdisj_old b hbP hne
      show r + 2 ^ k ≤ b.1 ∨ b.1 + 2 ^ (b.2 - MIN_ORDER) ≤ r
      omega
    · exact List.Pairwise.sublist (List.erase_sublist _ _) hI.disj
  · -- F nodup
    refine List.Nodup.cons ?_ (List.Nodup.cons ?_ (hFnodup.erase _))
    · intro hmem
      rcases List.mem_cons.mp hmem with heq | hmem
      · exact hrne (congrArg Prod.fst heq).symm
      · exact hicF ((hmemFerase _).mp hmem).2
    · intro hmem
      exact hrF c ((hmemFerase _).mp hmem).2
  · -- F ⊆ P
    intro b hb
    rcases List.mem_cons.mp hb with rfl | hb
    · exact List.mem_cons_self _ _
    rcases List.mem_cons.mp hb with rfl | hb
    · exact List.mem_cons.mpr (Or.inr (List.mem_cons_self _ _))
    · obtain ⟨hne, hbF⟩ := (hmemFerase b).mp hb
      exact List.mem_cons.mpr (Or.inr (List.mem_cons.mpr
        (Or.inr ((hmemPerase b).mpr ⟨hne, hI.sub b hbF⟩))))
  · -- page orders
    intro b hb
    rcases List.mem_cons.mp hb with rfl | hb
    · refine ⟨hpo_i, ?_⟩
      intro j hj1 hj2
      have hj1' : j < i + 2 ^ k := hj1
      have hj2' : i < j := hj2
      rw [hpo_other j (by omega) (by omega)]
      exact hint_old j (by omega) (by omega)
    rcases List.mem_cons.mp hb with rfl | hb
    · refine ⟨hpo_r, ?_⟩
      intro j hj1 hj2
      have hj1' : j < r + 2 ^ k := hj1
      have hj2' : r < j := hj2
      rw [hpo_other j (by omega) (by omega)]
      exact hint_old j (by omega) (by omega)
    · obtain ⟨hne, hbP⟩ := (hmemPerase b).mp hb
      have hdb := hdisj_old b hbP hne
      have hsz : 0 < 2 ^ (b.2 - MIN_ORDER) := Nat.pos_pow_of_pos _ (by omega)
      refine ⟨?_, ?_⟩
      · rw [hpo_other b.1 (by omega) (by omega)]
        exact (hI.ords b hbP).1
      · intro j hj1 hj2
        rw [hpo_other j (by omega) (by omega)]
        exact (hI.ords b hbP).2 j hj1 hj2
  · -- free lists
    intro o'' ho''
    by_cases hoc : o'' = c
    · rw [hoc] at ho'' ⊢
      rw [hfl_c]
      refine ⟨?_, ?_, ?_⟩
      · refine List.Nodup.cons ?_ (List.Nodup.cons ?_ (((hI.lists _ ho'').1).erase _))
        · intro hmem
          rcases List.mem_cons.mp hmem with heq | hmem
          · exact hrne heq.symm
          · exact hiFL c ho'' (by omega) (List.mem_of_mem_erase hmem)
        · intro hmem
          exact hrFL c ho'' (List.mem_of_mem_erase hmem)
      · intro x hx
        rcases List.mem_cons.mp hx with rfl | hx
        · exact List.mem_cons_self _ _
        rcases List.mem_cons.mp hx with rfl | hx
        · exact List.mem_cons.mpr (Or.inr (List.mem_cons_self _ _))
        · have hxs : x ∈ getFL s.freeArea c := List.mem_of_mem_erase hx
          have hxF : (x, c) ∈ F := (hI.flist_iff ho'').mp hxs
          refine List.mem_cons.mpr (Or.inr (List.mem_cons.mpr (Or.inr ?_)))
          refine (hmemFerase _).mpr ⟨?_, hxF⟩
          intro heq
          injection heq with h1 h2
          omega
      · intro b hb hbo
        rcases List.mem_cons.mp hb with rfl | hb
        · exact List.mem_cons_self _ _
        rcases List.mem_cons.mp hb with rfl | hb
        · exact List.mem_cons.mpr (Or.inr (List.mem_cons_self _ _))
        · obtain ⟨hne, hbF⟩ := (hmemFerase b).mp hb
          have hbl : b.1 ∈ getFL s.freeArea c := (hI.lists _ ho'').2.2 b hbF hbo
          refine List.mem_cons.mpr (Or.inr (List.mem_cons.mpr (Or.inr ?_)))
          refine (List.mem_erase_of_ne ?_).mpr hbl
          intro heq
          apply hicF
          have hbeq : (b.1, b.2) = b := rfl
          rw [← heq, ← hbo, hbeq]
          exact hbF
    · rw [hfl_other o'' hoc]
      refine ⟨((hI.lists _ ho'').1).erase _, ?_, ?_⟩
      · intro x hx
        have hxs : x ∈ getFL s.freeArea o'' := List.mem_of_mem_erase hx
        have hxi : x ≠ i := ((hI.lists _ ho'').1.mem_erase_iff.mp hx).1
        have hxF : (x, o'') ∈ F := (hI.flist_iff ho'').mp hxs
        refine List.mem_cons.mpr (Or.inr (List.mem_cons.mpr (Or.inr ?_)))
        refine (hmemFerase _).mpr ⟨?_, hxF⟩
        intro heq
        injection heq with h1 h2
        exact hxi h1
      · intro b hb hbo
        rcases List.mem_cons.mp hb with rfl | hb
        · exact absurd hbo.symm hoc
        rcases List.mem_cons.mp hb with rfl | hb
        · exact absurd hbo.symm hoc
        · obtain ⟨hne, hbF⟩ := (hmemFerase b).mp hb
          have hbl : b.1 ∈ getFL s.freeArea o'' := (hI.lists _ ho'').2.2 b hbF hbo
          refine (List.mem_erase_of_ne ?_).mpr hbl
          intro heq
          have hbeq : b = (i, b.2) := by
            have h0 : (b.1, b.2) = b := rfl
            rw [← h0, heq]
          rw [hbeq] at hbF
          have h1 := hhead_i b.2 (hI.sub _ hbF)
          apply hne
          rw [hbeq, h1]
  · -- weakened no-buddy-pair at order c
    intro b hb hbud
    have hbud_i : buddyOf (i, c) = (r, c) := by
      unfold buddyOf
      simp only
      rw [hr]
    have hbud_r : buddyOf (r, c) = (i, c) := by
      unfold buddyOf
      simp only
      have h1 : r ^^^ 2 ^ (c - MIN_ORDER) = i := by
        rw [hr]
        exact hxf.2.1
      rw [h1]
    rcases List.mem_cons.mp hb with rfl | hb
    · exact ⟨rfl, Or.inl rfl⟩
    rcases List.mem_cons.mp hb with rfl | hb
    · exact ⟨rfl, Or.inr hr⟩
    · -- an old free block whose buddy is also free in the new F: impossible
      obtain ⟨hne, hbF⟩ := (hmemFerase b).mp hb
      exfalso
      have hbinv : buddyOf (buddyOf b) = b := hinv b (hI.sub b hbF)
      rcases List.mem_cons.mp hbud with heq | hbud
      · -- buddyOf b = (i, c): then b = (r, c), not an old free block
        have hb2 : b = (r, c) := by
          rw [← hbinv, heq, hbud_i]
        exact hrF c (hb2 ▸ hbF)
      rcases List.mem_cons.mp hbud with heq | hbud
      · -- buddyOf b = (r, c): then b = (i, c), not an old free block
        have hb2 : b = (i, c) := by
          rw [← hbinv, heq, hbud_r]
        exact hicF (hb2 ▸ hbF)
      · -- both b and its buddy are old: only the pair at order c+1 was allowed
        obtain ⟨hne', hbudF⟩ := (hmemFerase _).mp hbud
        obtain ⟨hbo, hhd⟩ := hE b hbF hbudF
        rcases hhd with hhd | hhd
        · apply hne
          have hbeq : (b.1, b.2) = b := rfl
          rw [← hbeq, hhd, hbo]
        · -- b is the right half at order c+1: its buddy is (i, c+1), erased
          apply hne'
          have hbeq : b = (i ^^^ 2 ^ (c + 1 - MIN_ORDER), c + 1) := by
            have h0 : (b.1, b.2) = b := rfl
            rw [← h0, hbo, hhd, hck]
          rw [hbeq]
          unfold buddyOf
          simp only
          rw [hck, (xor_facts (k + 1) (by omega) i hiN' hg3).2.1]

/-- Unfolding equation for the recursive case of `splitBlock`. -/
theorem splitBlock_step_eq (s : BuddyState) (c endO i : Nat) (h : ¬ (c + 1 = endO)) :
    splitBlock s (c + 1) endO i =
      splitBlock
        (listAdd i c (listAdd (ADDR_TO_PAGE (BUDDY_ADDR (PAGE_TO_ADDR i) c)) c
          (listDel i (setOrder (ADDR_TO_PAGE (BUDDY_ADDR (PAGE_TO_ADDR i) c)) (c : Int)
            (setOrder i (c : Int) s))))) c endO i := by
  rw [splitBlock.eq_def, if_neg h]

/-- Unfolding equation for the base case of `splitBlock`. -/
theorem splitBlock_base_eq (s : BuddyState) (endO i : Nat) :
    splitBlock s endO endO i = some (PAGE_TO_ADDR i, listDel i s) := by
  rw [splitBlock.eq_def, if_pos rfl]

/-- Full specification of `splitBlock` under the invariant: it returns the
address of the page `i` it started from, the final state keeps the
invariant, the block `(i, endO)` becomes allocated, and the right halves at
orders `endO, ..., cur-1` become free; everything else is untouched. -/
theorem splitBlock_spec : ∀ (cur : Nat) (s : BuddyState) (P F : List Block) (endO i : Nat),
    InvCore s P F → NoBuddyPairExcept F i cur → (i, cur) ∈ F →
    MIN_ORDER ≤ endO → endO ≤ cur →
    ∃ s' : BuddyState, splitBlock s cur endO i = some (PAGE_TO_ADDR i, s') ∧
      s'.mem = s.mem ∧
      ∃ P' F' : List Block,
        InvCore s' P' F' ∧ NoBuddyPair F' ∧
        (∀ b : Block, b ∈ P' ↔ ((b ∈ P ∧ b ≠ (i, cur)) ∨ b = (i, endO) ∨
          ∃ o', endO ≤ o' ∧ o' < cur ∧ b = (i ^^^ 2 ^ (o' - MIN_ORDER), o'))) ∧
        (∀ b : Block, b ∈ F' ↔ ((b ∈ F ∧ b ≠ (i, cur)) ∨
          ∃ o', endO ≤ o' ∧ o' < cur ∧ b = (i ^^^ 2 ^ (o' - MIN_ORDER), o'))) := by
  intro cur
  induction cur with
  | zero =>
    intro s P F endO i hI hE hiF h12 hle
    exfalso
    have hM : MIN_ORDER = 12 := rfl
    omega
  | succ c ih =>
    intro s P F endO i hI hE hiF h12 hle
    have hFnodup := hI.nodupF
    have hiP := hI.sub _ hiF
    have hPnodup := hI.nodupP
    have hiPC : ∀ o'', (i, o'') ∈ P → o'' = c + 1 := by
      intro o'' hmem
      have := hI.head_unique hmem hiP rfl
      injection this with h1 h2
    by_cases hbase : c + 1 = endO
    · -- base case of the recursion: currentOrder = endOrder
      subst hbase
      refine ⟨listDel i s, splitBlock_base_eq s _ i, rfl, P, F.erase (i, c + 1),
        ?_, ?_, ?_, ?_⟩
      · -- InvCore is preserved by removing the block from its free list
        refine ⟨hI.lenPO, by
            simp only [freeArea_length_listDel]; exact hI.lenFA,
          hI.good, hI.cover, hI.disj, hFnodup.erase _, ?_, hI.ords, ?_⟩
        · intro b hb
          exact hI.sub b (List.mem_of_mem_erase hb)
        · intro o ho
          rw [getFL_listDel s i o]
          refine ⟨((hI.lists o ho).1).erase _, ?_, ?_⟩
          · intro x hx
            have hxs := List.mem_of_mem_erase hx
            have hxi : x ≠ i := ((hI.lists o ho).1.mem_erase_iff.mp hx).1
            have hxF := (hI.flist_iff ho).mp hxs
            refine hFnodup.mem_erase_iff.mpr ⟨?_, hxF⟩
            intro heq
            injection heq with h1 h2
            exact hxi h1
          · intro b hb hbo
            obtain ⟨hne, hbF⟩ := hFnodup.mem_erase_iff.mp hb
            have hbl := (hI.lists o ho).2.2 b hbF hbo
            refine (List.mem_erase_of_ne ?_).mpr hbl
            intro heq
            apply hne
            have hbeq : (b.1, b.2) = b := rfl
            have hbF' : (i, b.2) ∈ F := by rw [← heq, hbeq]; exact hbF
            have h1 := hiPC b.2 (hI.sub _ hbF')
            rw [← hbeq, heq, hbo, ← h1, hbo]
      · -- no free buddy pair remains
        intro b hb hbud
        obtain ⟨hne, hbF⟩ := hFnodup.mem_erase_iff.mp hb
        obtain ⟨hne', hbudF⟩ := hFnodup.mem_erase_iff.mp hbud
        obtain ⟨hbo, hhd⟩ := hE b hbF hbudF
        rcases hhd with hhd | hhd
        · apply hne
          have hbeq : (b.1, b.2) = b := rfl
          rw [← hbeq, hhd, hbo]
        · apply hne'
          show (b.1 ^^^ 2 ^ (b.2 - MIN_ORDER), b.2) = (i, c + 1)
          rw [hhd, hbo, Nat.xor_cancel_right]
      · intro b
        constructor
        · intro hb
          by_cases hbe : b = (i, c + 1)
          · exact Or.inr (Or.inl hbe)
          · exact Or.inl ⟨hb, hbe⟩
        · intro hb
          rcases hb with ⟨hb, -⟩ | hb | ⟨o', h1, h2, h3⟩
          · exact hb
          · rw [hb]; exact hiP
          · omega
      · intro b
        rw [hFnodup.mem_erase_iff]
        constructor
        · intro h
          exact Or.inl ⟨h.2, h.1⟩
        · intro hb
          rcases hb with ⟨hb, hbe⟩ | ⟨o', h1, h2, h3⟩
          · exact ⟨hbe, hb⟩
          · omega
    · -- recursive case: split once, then recurse at order c
      have hlt : endO ≤ c := by omega
      have hM : MIN_ORDER = 12 := rfl
      have hX : MAX_ORDER = 20 := rfl
      have hNP : NPAGES = 256 := rfl
      obtain ⟨hg1, hg2, hg3, hg4⟩ := hI.good _ hiP
      simp only at hg1 hg2 hg3 hg4
      have hi256 : i < 256 := by
        have := hI.headP_lt hiP
        omega
      set r := ADDR_TO_PAGE (BUDDY_ADDR (PAGE_TO_ADDR i) c) with hrdef
      have hrx : r = i ^^^ 2 ^ (c - MIN_ORDER) := by
        rw [hrdef]
        exact addr_buddy_idx c (by omega) (by omega) i hi256
      have hal : i % 2 ^ (c - MIN_ORDER) = 0 := by
        refine Nat.mod_eq_zero_of_dvd (dvd_trans (pow_dvd_pow 2 ?_) (Nat.dvd_of_mod_eq_zero hg3))
        omega
      have hrne : r ≠ i := by
        rw [hrx]
        exact (xor_facts (c - MIN_ORDER) (by omega) i hi256 hal).2.2.1
      obtain ⟨hI1, hE1⟩ := split_one_step hI hE hiF (by omega) hrx rfl
      obtain ⟨s', heq, hmem, P', F', hI', hN', hPiff, hFiff⟩ :=
        ih _ _ _ endO i hI1 hE1 (List.mem_cons_self _ _) h12 hlt
      have hicP : (i, c) ∉ P := by
        intro hmem
        have := hiPC c hmem
        omega
      have hicF : (i, c) ∉ F := fun hmem => hicP (hI.sub _ hmem)
      refine ⟨s', ?_, ?_, P', F', hI', hN', ?_, ?_⟩
      · rw [splitBlock_step_eq s c endO i hbase]
        exact heq
      · exact hmem
      · -- compose the partition description
        intro b
        rw [hPiff b]
        constructor
        · intro hb
          rcases hb with ⟨hbP1, hbne⟩ | hb | ⟨o', h1, h2, h3⟩
          · rcases List.mem_cons.mp hbP1 with rfl | hbP1
            · exact absurd rfl hbne
            rcases List.mem_cons.mp hbP1 with rfl | hbP1
            · exact Or.inr (Or.inr ⟨c, hlt, by omega, by rw [hrx]⟩)
            · obtain ⟨hne1, hbP⟩ := hPnodup.mem_erase_iff.mp hbP1
              exact Or.inl ⟨hbP, hne1⟩
          · exact Or.inr (Or.inl hb)
          · exact Or.inr (Or.inr ⟨o', h1, by omega, h3⟩)
        · intro hb
          rcases hb with ⟨hbP, hbne⟩ | hb | ⟨o', h1, h2, h3⟩
          · refine Or.inl ⟨List.mem_cons.mpr (Or.inr (List.mem_cons.mpr
              (Or.inr (hPnodup.mem_erase_iff.mpr ⟨hbne, hbP⟩)))), ?_⟩
            intro heq
            rw [heq] at hbP
            exact hicP hbP
          · exact Or.inr (Or.inl hb)
          · by_cases hoc : o' = c
            · subst hoc
              refine Or.inl ⟨List.mem_cons.mpr (Or.inr (List.mem_cons.mpr (Or.inl ?_))), ?_⟩
              · rw [h3, hrx]
              · rw [h3]
                intro heq
                injection heq with ha hb2
                rw [← hrx] at ha
                exact hrne ha
            · exact Or.inr (Or.inr ⟨o', h1, by omega, h3⟩)
      · -- compose the free-set description
        intro b
        rw [hFiff b]
        constructor
        · intro hb
          rcases hb with ⟨hbF1, hbne⟩ | ⟨o', h1, h2, h3⟩
          · rcases List.mem_cons.mp hbF1 with rfl | hbF1
            · exact absurd rfl hbne
            rcases List.mem_cons.mp hbF1 with rfl | hbF1
            · exact Or.inr ⟨c, hlt, by omega, by rw [hrx]⟩
            · obtain ⟨hne1, hbF⟩ := hFnodup.mem_erase_iff.mp hbF1
              exact Or.inl ⟨hbF, hne1⟩
          · exact Or.inr ⟨o', h1, by omega, h3⟩
        · intro hb
          rcases hb with ⟨hbF, hbne⟩ | ⟨o', h1, h2, h3⟩
          · refine Or.inl ⟨List.mem_cons.mpr (Or.inr (List.mem_cons.mpr
              (Or.inr (hFnodup.mem_erase_iff.mpr ⟨hbne, hbF⟩)))), ?_⟩
            intro heq
            rw [heq] at hbF
            exact hicF hbF
          · by_cases hoc : o' = c
            · subst hoc
              refine Or.inl ⟨List.mem_cons.mpr (Or.inr (List.mem_cons.mpr (Or.inl ?_))), ?_⟩
              · rw [h3, hrx]
              · rw [h3]
                intro heq
                injection heq with ha hb2
                rw [← hrx] at ha
                exact hrne ha
            · exact Or.inr ⟨o', h1, by omega, h3⟩

/-! ### The allocation scan -/

/-- Values produced by the scan loop: either the first order at which
`list_empty` is false, at least the starting order, or `0` after the
wrap-around through `freeOrder = -1`. -/
theorem allocScan_spec : ∀ (fuel : Nat) (fa : List (List Nat)) (start f : Int),
    (MIN_ORDER : Int) ≤ start → start ≤ (MAX_ORDER : Int) →
    allocScan fa start fuel = some f →
    (start ≤ f ∧ f ≤ (MAX_ORDER : Int) ∧ listEmptyAt fa f = false) ∨ f = 0 := by
  intro fuel
  induction fuel with
  | zero =>
    intro fa start f h1 h2 h
    exact absurd h (by rw [allocScan]; exact Option.noConfusion)
  | succ fl ih =>
    intro fa start f h1 h2 h
    rw [allocScan.eq_def] at h
    simp only at h
    rw [if_pos h2] at h
    by_cases hemp : listEmptyAt fa start = false
    · rw [if_pos hemp] at h
      injection h with h
      subst h
      exact Or.inl ⟨le_refl _, h2, hemp⟩
    · rw [if_neg hemp] at h
      by_cases hmax : start = (MAX_ORDER : Int)
      · rw [if_pos hmax] at h
        -- rescan from 0: with the uninitialized head there, it stops at 0
        right
        match fl, h with
        | fl + 1, h =>
          rw [allocScan.eq_def] at h
          simp only at h
          rw [if_pos (by
            have : (0 : Int) ≤ (MAX_ORDER : Int) := by positivity
            exact this)] at h
          rw [if_pos (by rw [listEmptyAt, if_pos (by norm_num [MIN_ORDER])])] at h
          injection h with h
          exact h.symm
      · rw [if_neg hmax] at h
        have := ih fa (start + 1) f (by omega) (by omega) h
        rcases this with ⟨ha, hb, hc⟩ | h0
        · exact Or.inl ⟨by omega, hb, hc⟩
        · exact Or.inr h0

/-! ### Specification of buddy_alloc -/

theorem getOrderAux_ge : ∀ (fuel order : Nat) {size : Int} {o : Nat},
    getOrderAux size order fuel = some o → order ≤ o := by
  intro fuel
  induction fuel with
  | zero =>
    intro order size o h
    exact absurd h (by rw [getOrderAux]; exact Option.noConfusion)
  | succ f ih =>
    intro order size o h
    rw [getOrderAux.eq_def] at h
    simp only at h
    by_cases h31 : 31 ≤ order
    · rw [if_pos h31] at h
      exact absurd h Option.noConfusion
    · rw [if_neg h31] at h
      by_cases hc : Int.tdiv (2 ^ order) size < 1
      · rw [if_pos hc] at h
        have := ih (order + 1) h
        omega
      · rw [if_neg hc] at h
        injection h with h
        omega

theorem getOrder_cases {size v : Int} (h : getOrder size = some v) :
    v = -1 ∨ ∃ t : Nat, v = (t : Int) ∧ MIN_ORDER ≤ t ∧ t ≤ MAX_ORDER := by
  unfold getOrder at h
  cases haux : getOrderAux size MIN_ORDER (size.toNat + 32) with
  | none => rw [haux] at h; exact absurd h (by simp)
  | some o =>
    rw [haux] at h
    simp only at h
    by_cases hgt : (MAX_ORDER : Int) < (o : Int)
    · rw [if_pos hgt] at h
      injection h with h
      exact Or.inl h.symm
    · rw [if_neg hgt] at h
      injection h with h
      refine Or.inr ⟨o, h.symm, getOrderAux_ge _ _ haux, by exact_mod_cast not_lt.mp hgt⟩

theorem getOrder_nonpos {size : Int} (h : size ≤ 0) : getOrder size = none := by
  unfold getOrder
  rw [getOrderAux_nonpos h]

theorem getOrderAux_big {size : Int} (h : 2 ^ 30 < size) :
    ∀ (fuel order : Nat), getOrderAux size order fuel = none := by
  have hp : (0 : Int) < 2 ^ 30 := by positivity
  intro fuel
  induction fuel with
  | zero => intro order; rfl
  | succ f ih =>
    intro order
    by_cases h31 : 31 ≤ order
    · simp only [getOrderAux, if_pos h31]
    · have hmono : (2 : Int) ^ order ≤ 2 ^ 30 :=
        pow_le_pow_right₀ (by norm_num) (by omega)
      have hcond : Int.tdiv (2 ^ order) size < 1 := by
        rw [tdiv_pow_lt_one_iff order (by omega)]
        omega
      simp only [getOrderAux, if_neg h31, if_pos hcond]
      exact ih (order + 1)

theorem getOrder_big {size : Int} (h : 2 ^ 30 < size) : getOrder size = none := by
  unfold getOrder
  rw [getOrderAux_big h]

theorem buddy_alloc_spec (s : BuddyState) (P F : List Block) (size : Int)
    (res : Option Nat × BuddyState) (hI : InvState s P F)
    (hcall : buddy_alloc size s = some res) :
    res = (none, s) ∨
    ∃ (i t f : Nat), res.1 = some (PAGE_TO_ADDR i) ∧
      getOrder size = some (t : Int) ∧ MIN_ORDER ≤ t ∧ t ≤ MAX_ORDER ∧
      t ≤ f ∧ f ≤ MAX_ORDER ∧ (i, f) ∈ F ∧
      ∃ P' F', InvState res.2 P' F' ∧ res.2.mem = s.mem ∧
        ((i, t) ∈ P' ∧ (i, t) ∉ F') ∧
        (∀ b : Block, (b ∈ P' ∧ b ∉ F') ↔ ((b ∈ P ∧ b ∉ F) ∨ b = (i, t))) := by
  obtain ⟨hC, hN⟩ := hI
  have hM : MIN_ORDER = 12 := rfl
  have hX : MAX_ORDER = 20 := rfl
  have hNP : NPAGES = 256 := rfl
  cases hgo : getOrder size with
  | none =>
    rw [buddy_alloc, hgo] at hcall
    exact absurd hcall (by simp)
  | some v =>
    rw [buddy_alloc, hgo] at hcall
    simp only at hcall
    by_cases hv : v < 0
    · rw [if_pos hv] at hcall
      injection hcall with h
      exact Or.inl h.symm
    · rw [if_neg hv] at hcall
      obtain hv1 | ⟨t, rfl, ht1, ht2⟩ := getOrder_cases hgo
      · omega
      cases hsc : allocScan s.freeArea (t : Int) 64 with
      | none =>
        rw [hsc] at hcall
        exact absurd hcall (by simp)
      | some f =>
        rw [hsc] at hcall
        simp only at hcall
        have hfspec := allocScan_spec 64 s.freeArea (t : Int) f
          (by exact_mod_cast ht1) (by exact_mod_cast ht2) hsc
        have hemptyLow : ∀ o : Nat, o < MIN_ORDER → getFL s.freeArea o = [] := by
          intro o ho
          rw [List.eq_nil_iff_forall_not_mem]
          intro x hx
          have hxF := (hC.flist_iff (by omega)).mp hx
          have := hC.good _ (hC.sub _ hxF)
          obtain ⟨h1, -, -, -⟩ := this
          simp only at h1
          omega
        rcases hfspec with ⟨hvf, hf20i, hne⟩ | rfl
        · -- a free list was found at order f >= t
          rw [if_neg (by omega)] at hcall
          set fN := f.toNat with hfN
          have hfv : (fN : Int) = f := Int.toNat_of_nonneg (by omega)
          have htf : t ≤ fN := by omega
          have hf20 : fN ≤ MAX_ORDER := by omega
          have hne' : ¬ (getFL s.freeArea fN).isEmpty = true := by
            rw [listEmptyAt, if_neg (by omega)] at hne
            rw [hne]
            exact Bool.false_ne_true
          cases hl : getFL s.freeArea fN with
          | nil =>
            rw [hl] at hne'
            simp at hne'
          | cons i rest =>
            simp only [hl] at hcall
            have hiF : (i, fN) ∈ F := (hC.flist_iff hf20).mp (by
              rw [hl]; exact List.mem_cons_self _ _)
            have hEx : NoBuddyPairExcept F i fN := fun b hb hbud => absurd hbud (hN b hb)
            obtain ⟨s', heq, hmem', P', F', hIC', hNB', hPiff, hFiff⟩ :=
              splitBlock_spec fN s P F t i hC hEx hiF ht1 htf
            simp only [Int.toNat_natCast] at hcall
            rw [heq] at hcall
            simp only at hcall
            injection hcall with hres
            subst hres
            have hiP : (i, fN) ∈ P := hC.sub _ hiF
            obtain ⟨hg1, hg2, hg3, hg4⟩ := hC.good _ hiP
            simp only at hg1 hg2 hg3 hg4
            have hi256 : i < 256 := by
              have := hC.headP_lt hiP
              omega
            have hhead : ∀ o2, (i, o2) ∈ P → o2 = fN := by
              intro o2 hm
              have := hC.head_unique hm hiP rfl
              injection this with u1 u2
            -- each right half is an interior page of the found block
            have hrint : ∀ o', t ≤ o' → o' < fN →
                i ^^^ 2 ^ (o' - MIN_ORDER) = i + 2 ^ (o' - MIN_ORDER) ∧
                i + 2 ^ (o' - MIN_ORDER) < i + 2 ^ (fN - MIN_ORDER) := by
              intro o' h1 h2
              have hk9 : o' - MIN_ORDER < 9 := by omega
              have hdvd : i % 2 ^ (o' - MIN_ORDER + 1) = 0 := by
                refine Nat.mod_eq_zero_of_dvd
                  (dvd_trans (pow_dvd_pow 2 (by omega)) (Nat.dvd_of_mod_eq_zero hg3))
              have hal : i % 2 ^ (o' - MIN_ORDER) = 0 := by
                refine Nat.mod_eq_zero_of_dvd
                  (dvd_trans (pow_dvd_pow 2 (by omega)) (Nat.dvd_of_mod_eq_zero hg3))
              have hxf := (xor_facts _ hk9 i hi256 hal).2.2.2 hdvd
              refine ⟨hxf, ?_⟩
              have hmono : (2:Nat) ^ (o' - MIN_ORDER + 1) ≤ 2 ^ (fN - MIN_ORDER) :=
                Nat.pow_le_pow_right (by omega) (by omega)
              have hp2 : (2:Nat) ^ (o' - MIN_ORDER + 1)
                  = 2 ^ (o' - MIN_ORDER) + 2 ^ (o' - MIN_ORDER) := by
                rw [pow_succ]; ring
              omega
            have hrightP : ∀ o', t ≤ o' → o' < fN →
                ∀ o2, (i ^^^ 2 ^ (o' - MIN_ORDER), o2) ∉ P := by
              intro o' h1 h2 o2
              obtain ⟨hx1, hx2⟩ := hrint o' h1 h2
              have hsz : 0 < (2:Nat) ^ (o' - MIN_ORDER) := Nat.pos_pow_of_pos _ (by omega)
              refine hC.interior_not_head hiP ?_ ?_ o2
              · show i ≤ i ^^^ 2 ^ (o' - MIN_ORDER) ∧
                  i ^^^ 2 ^ (o' - MIN_ORDER) < i + 2 ^ (fN - MIN_ORDER)
                omega
              · show i ^^^ 2 ^ (o' - MIN_ORDER) ≠ i
                omega
            have hitF' : (i, t) ∉ F' := by
              intro hmem
              rcases (hFiff _).mp hmem with ⟨hbF, hbne⟩ | ⟨o', h1, h2, h3⟩
              · have h4 : t = fN := hC.headF_unique hbF hiP
                exact hbne (by rw [h4])
              · injection h3 with ha hb
                obtain ⟨hx1, hx2⟩ := hrint o' (by omega) h2
                have hsz : 0 < (2:Nat) ^ (o' - MIN_ORDER) := Nat.pos_pow_of_pos _ (by omega)
                omega
            refine Or.inr ⟨i, t, fN, rfl, rfl, ht1, ht2, htf, hf20, hiF, P', F',
              ⟨hIC', hNB'⟩, hmem', ⟨(hPiff _).mpr (Or.inr (Or.inl rfl)), hitF'⟩, ?_⟩
            intro b
            constructor
            · intro hb
              obtain ⟨hbP', hbF'n⟩ := hb
              rcases (hPiff b).mp hbP' with ⟨hbP, hbne⟩ | rfl | ⟨o', h1, h2, h3⟩
              · refine Or.inl ⟨hbP, ?_⟩
                intro hbF
                exact hbF'n ((hFiff b).mpr (Or.inl ⟨hbF, hbne⟩))
              · exact Or.inr rfl
              · exact absurd ((hFiff b).mpr (Or.inr ⟨o', h1, h2, h3⟩)) hbF'n
            · intro hb
              rcases hb with ⟨hbP, hbnF⟩ | rfl
              · have hbnif : b ≠ (i, fN) := by
                  intro heq2
                  rw [heq2] at hbnF
                  exact hbnF hiF
                refine ⟨(hPiff b).mpr (Or.inl ⟨hbP, hbnif⟩), ?_⟩
                intro hbF'
                rcases (hFiff b).mp hbF' with ⟨hbF, -⟩ | ⟨o', h1, h2, h3⟩
                · exact hbnF hbF
                · exact hrightP o' h1 h2 o' (h3 ▸ hbP)
              · exact ⟨(hPiff _).mpr (Or.inr (Or.inl rfl)), hitF'⟩
        · -- wrap-around to 0: free_area[0] is empty, so list_entry crashes
          rw [if_neg (by omega)] at hcall
          have h0 : ((0 : Int).toNat) = 0 := rfl
          rw [h0, hemptyLow 0 (by omega)] at hcall
          exact absurd hcall (by simp)

/-! ### Specification of buddy_free -/

/-- Inserting a freed block whose buddy is not free: the partition is
unchanged and the block joins the free set. -/
theorem free_insert_step {s : BuddyState} {P F : List Block} {p o bd : Nat}
    (hC : InvCore s P F) (hN : NoBuddyPair F)
    (hpP : (p, o) ∈ P) (hpF : (p, o) ∉ F) (ho : o ≤ MAX_ORDER)
    (hbd : bd = p ^^^ 2 ^ (o - MIN_ORDER)) (hnb : (bd, o) ∉ F) :
    InvCore (listAdd p o s) P ((p, o) :: F) ∧ NoBuddyPair ((p, o) :: F) := by
  have hM : MIN_ORDER = 12 := rfl
  have hX : MAX_ORDER = 20 := rfl
  have hNP : NPAGES = 256 := rfl
  obtain ⟨hg1, hg2, hg3, hg4⟩ := hC.good _ hpP
  simp only at hg1 hg2 hg3 hg4
  have hp256 : p < 256 := by
    have := hC.headP_lt hpP
    omega
  have hk9 : o - MIN_ORDER < 9 := by omega
  have hxf := xor_facts _ hk9 p hp256 hg3
  have hbdne : bd ≠ p := by rw [hbd]; exact hxf.2.2.1
  have hpFL : p ∉ getFL s.freeArea o := fun h => hpF ((hC.flist_iff ho).mp h)
  constructor
  · refine ⟨hC.lenPO, by
        simp only [freeArea_length_listAdd]; exact hC.lenFA,
      hC.good, hC.cover, hC.disj, List.Nodup.cons hpF hC.nodupF, ?_, hC.ords, ?_⟩
    · intro b hb
      rcases List.mem_cons.mp hb with rfl | hb
      · exact hpP
      · exact hC.sub b hb
    · intro o2 ho2
      by_cases hoo : o2 = o
      · subst hoo
        rw [getFL_listAdd_self p (by rw [hC.lenFA]; omega)]
        refine ⟨List.Nodup.cons hpFL (hC.lists o2 ho2).1, ?_, ?_⟩
        · intro x hx
          rcases List.mem_cons.mp hx with rfl | hx
          · exact List.mem_cons_self _ _
          · exact List.mem_cons.mpr (Or.inr ((hC.lists o2 ho2).2.1 x hx))
        · intro b hb hbo
          rcases List.mem_cons.mp hb with rfl | hb
          · exact List.mem_cons_self _ _
          · exact List.mem_cons.mpr (Or.inr ((hC.lists o2 ho2).2.2 b hb hbo))
      · rw [getFL_listAdd_ne s p (fun h => hoo h.symm)]
        refine ⟨(hC.lists o2 ho2).1, ?_, ?_⟩
        · intro x hx
          exact List.mem_cons.mpr (Or.inr ((hC.lists o2 ho2).2.1 x hx))
        · intro b hb hbo
          rcases List.mem_cons.mp hb with rfl | hb
          · exact absurd hbo.symm hoo
          · exact (hC.lists o2 ho2).2.2 b hb hbo
  · -- no free buddy pair
    intro b hb hbud
    rcases List.mem_cons.mp hb with rfl | hb
    · -- the new block: its buddy is not free
      rcases List.mem_cons.mp hbud with heq | hbud
      · -- buddyOf (p, o) = (p, o) is impossible
        have : p ^^^ 2 ^ (o - MIN_ORDER) = p := congrArg Prod.fst heq
        exact hxf.2.2.1 this
      · -- buddyOf (p, o) = (bd, o) is not in F
        apply hnb
        have : buddyOf (p, o) = (bd, o) := by
          unfold buddyOf
          simp only
          rw [hbd]
        rw [← this]
        exact hbud
    · -- an old block: its buddy must be the new block, i.e. b = (bd, o)
      rcases List.mem_cons.mp hbud with heq | hbud
      · apply hnb
        obtain ⟨hA, hB, hCal, hD⟩ := hC.good b (hC.sub b hb)
        have hb256 : b.1 < 256 := by
          have := hC.headP_lt (hC.sub b hb)
          omega
        have hbk : b.2 - MIN_ORDER < 9 := by omega
        have hbinv : buddyOf (buddyOf b) = b := by
          unfold buddyOf
          simp only
          rw [(xor_facts _ hbk _ hb256 hCal).2.1]
        have hbeq : b = buddyOf (p, o) := by rw [← hbinv, heq]
        have : buddyOf (p, o) = (bd, o) := by
          unfold buddyOf
          simp only
          rw [hbd]
        rw [hbeq, this] at hb
        exact hb
      · exact hN b hb hbud

/-- Effect of one merge step of `buddy_free`: the two buddy blocks
`(p, o)` (being freed, not in a list) and `(bd, o)` (free) are replaced by
the single block `(L, o+1)` with `L` the lower head, which is not yet in
any free list. -/
theorem merge_one_step {s : BuddyState} {P F : List Block} {p o bd L R : Nat} {s3 : BuddyState}
    (hC : InvCore s P F) (hN : NoBuddyPair F)
    (hpP : (p, o) ∈ P) (hpF : (p, o) ∉ F)
    (hbd : bd = p ^^^ 2 ^ (o - MIN_ORDER)) (hbdF : (bd, o) ∈ F)
    (hL : L = min p bd) (hR : R = max p bd)
    (hs3 : s3 = listDel bd (setOrder L ((o : Int) + 1) (setOrder R (-1) s))) :
    o + 1 ≤ MAX_ORDER ∧
    (L, o + 1) ∉ P ∧
    InvCore s3 ((L, o + 1) :: (P.erase (p, o)).erase (bd, o)) (F.erase (bd, o)) ∧
    NoBuddyPair (F.erase (bd, o)) ∧
    (L, o + 1) ∉ F.erase (bd, o) ∧
    (∀ b : Block, (b ∈ ((L, o + 1) :: (P.erase (p, o)).erase (bd, o)) ∧
        b ∉ F.erase (bd, o)) ↔
      ((b ∈ P ∧ b ∉ F ∧ b ≠ (p, o)) ∨ b = (L, o + 1))) := by
  have hM : MIN_ORDER = 12 := rfl
  have hX : MAX_ORDER = 20 := rfl
  have hNP : NPAGES = 256 := rfl
  have hbdP : (bd, o) ∈ P := hC.sub _ hbdF
  obtain ⟨hg1, hg2, hg3, hg4⟩ := hC.good _ hpP
  simp only at hg1 hg2 hg3 hg4
  obtain ⟨hh1, hh2, hh3, hh4⟩ := hC.good _ hbdP
  simp only at hh1 hh2 hh3 hh4
  set k := o - MIN_ORDER with hk
  have hk9 : k < 9 := by omega
  have hpow : (2 : Nat) ^ (k + 1) = 2 ^ k + 2 ^ k := by rw [pow_succ]; ring
  have hpos : 0 < (2 : Nat) ^ k := Nat.pos_pow_of_pos _ (by omega)
  have hp256 : p < 256 := by
    have := hC.headP_lt hpP
    omega
  have hxf := xor_facts k hk9 p hp256 hg3
  have hbdne : bd ≠ p := by rw [hbd]; exact hxf.2.2.1
  have hshape := buddy_pair_shape hk9 hp256 hg3
  have hLal : L % 2 ^ (k + 1) = 0 := by rw [hL, hbd]; exact hshape.1
  have hRL : R = L + 2 ^ k := by rw [hL, hR, hbd]; exact hshape.2
  have hcase : (p = L ∧ bd = R) ∨ (p = R ∧ bd = L) := by
    rcases min_choice p bd with h | h
    · left
      constructor
      · omega
      · rw [hR]
        rcases max_choice p bd with h2 | h2 <;> omega
    · right
      constructor
      · rw [hR]
        rcases max_choice p bd with h2 | h2 <;> omega
      · omega
  have hLoP : (L, o) ∈ P := by rcases hcase with ⟨h1, h2⟩ | ⟨h1, h2⟩
                               · rw [← h1]; exact hpP
                               · rw [← h2]; exact hbdP
  have hRoP : (R, o) ∈ P := by rcases hcase with ⟨h1, h2⟩ | ⟨h1, h2⟩
                               · rw [← h2]; exact hbdP
                               · rw [← h1]; exact hpP
  have hRbound : R + 2 ^ k ≤ 256 := by rcases hcase with ⟨h1, h2⟩ | ⟨h1, h2⟩ <;> omega
  have hmerged_bound : L + 2 ^ (k + 1) ≤ 256 := by omega
  have ho19 : o + 1 ≤ MAX_ORDER := by
    by_contra hcon
    have hk8 : k = 8 := by omega
    have h512 : (2 : Nat) ^ (k + 1) = 512 := by rw [hk8]; norm_num
    omega
  have hLR : L ≠ R := by omega
  have hL256 : L < 256 := by omega
  have hR256 : R < 256 := by omega
  -- unique heads
  have hheadL : ∀ o2, (L, o2) ∈ P → o2 = o := by
    intro o2 hm
    have := hC.head_unique hm hLoP rfl
    injection this with u1 u2
  have hheadR : ∀ o2, (R, o2) ∈ P → o2 = o := by
    intro o2 hm
    have := hC.head_unique hm hRoP rfl
    injection this with u1 u2
  have hLP1 : (L, o + 1) ∉ P := by
    intro hm
    have := hheadL _ hm
    omega
  have hbdhead : ∀ o2, (bd, o2) ∈ P → o2 = o := by
    intro o2 hm
    have := hC.head_unique hm hbdP rfl
    injection this with u1 u2
  -- membership in the double erase
  have hPnodup := hC.nodupP
  have hFnodup := hC.nodupF
  have hmemPP : ∀ b : Block, b ∈ (P.erase (p, o)).erase (bd, o) ↔
      b ≠ (bd, o) ∧ b ≠ (p, o) ∧ b ∈ P := by
    intro b
    rw [(hPnodup.erase _).mem_erase_iff, hPnodup.mem_erase_iff]
  have hmemFe : ∀ b : Block, b ∈ F.erase (bd, o) ↔ b ≠ (bd, o) ∧ b ∈ F :=
    fun b => hFnodup.mem_erase_iff
  -- disjointness of other blocks from the two halves
  have hdisj2 : ∀ b ∈ P, b ≠ (p, o) → b ≠ (bd, o) →
      (b.1 + 2 ^ (b.2 - MIN_ORDER) ≤ L ∨ L + 2 ^ (k + 1) ≤ b.1) := by
    intro b hb hne1 hne2
    have hd1 : b.1 + 2 ^ (b.2 - MIN_ORDER) ≤ p ∨ p + 2 ^ k ≤ b.1 :=
      hC.disj_of_ne hb hpP hne1
    have hd2 : b.1 + 2 ^ (b.2 - MIN_ORDER) ≤ bd ∨ bd + 2 ^ k ≤ b.1 :=
      hC.disj_of_ne hb hbdP hne2
    have hsz : 0 < 2 ^ (b.2 - MIN_ORDER) := Nat.pos_pow_of_pos _ (by omega)
    rcases hcase with ⟨h1, h2⟩ | ⟨h1, h2⟩ <;> omega
  -- the page table of s3
  have hpo_L : getPageOrder s3 L = (o : Int) + 1 := by
    rw [hs3]
    show getPageOrder (setOrder L ((o : Int) + 1) (setOrder R (-1) s)) L = (o : Int) + 1
    rw [getPageOrder_setOrder_self _ (by
      simp only [pageOrder_length_setOrder, hC.lenPO]
      omega)]
  have hpo_R : getPageOrder s3 R = -1 := by
    rw [hs3]
    show getPageOrder (setOrder L ((o : Int) + 1) (setOrder R (-1) s)) R = -1
    rw [getPageOrder_setOrder_ne _ hLR,
      getPageOrder_setOrder_self _ (by rw [hC.lenPO]; omega)]
  have hpo_other : ∀ j, j ≠ L → j ≠ R → getPageOrder s3 j = getPageOrder s j := by
    intro j hj1 hj2
    rw [hs3]
    show getPageOrder (setOrder L ((o : Int) + 1) (setOrder R (-1) s)) j = getPageOrder s j
    rw [getPageOrder_setOrder_ne _ (fun h => hj1 h.symm),
      getPageOrder_setOrder_ne _ (fun h => hj2 h.symm)]
  -- the free lists of s3
  have hfl : ∀ o2, getFL s3.freeArea o2 = (getFL s.freeArea o2).erase bd := by
    intro o2
    rw [hs3, getFL_listDel]
    rfl
  refine ⟨ho19, hLP1, ⟨?_, ?_, ?_, ?_, ?_, hFnodup.erase _, ?_, ?_, ?_⟩, ?_, ?_, ?_⟩
  · -- page table length
    rw [hs3]
    show ((s.pageOrder.set R (-1)).set L ((o : Int) + 1)).length = NPAGES
    simp only [List.length_set]
    exact hC.lenPO
  · -- free area length
    rw [hs3]
    simp only [freeArea_length_listDel, freeArea_setOrder]
    exact hC.lenFA
  · -- all blocks are good
    intro b hb
    rcases List.mem_cons.mp hb with rfl | hb
    · refine ⟨by omega, ho19, ?_, ?_⟩
      · show L % 2 ^ (o + 1 - MIN_ORDER) = 0
        have : o + 1 - MIN_ORDER = k + 1 := by omega
        rw [this]
        exact hLal
      · show L + 2 ^ (o + 1 - MIN_ORDER) ≤ NPAGES
        have : o + 1 - MIN_ORDER = k + 1 := by omega
        rw [this]
        omega
    · exact hC.good b ((hmemPP b).mp hb).2.2
  · -- coverage
    intro j hj
    obtain ⟨b, hb, hcov⟩ := hC.cover j hj
    by_cases hb1 : b = (p, o)
    · subst hb1
      have hcov' : p ≤ j ∧ j < p + 2 ^ k := hcov
      refine ⟨(L, o + 1), List.mem_cons_self _ _, ?_⟩
      show L ≤ j ∧ j < L + 2 ^ (o + 1 - MIN_ORDER)
      have : o + 1 - MIN_ORDER = k + 1 := by omega
      rw [this]
      rcases hcase with ⟨h1, h2⟩ | ⟨h1, h2⟩ <;> omega
    by_cases hb2 : b = (bd, o)
    · subst hb2
      have hcov' : bd ≤ j ∧ j < bd + 2 ^ k := hcov
      refine ⟨(L, o + 1), List.mem_cons_self _ _, ?_⟩
      show L ≤ j ∧ j < L + 2 ^ (o + 1 - MIN_ORDER)
      have : o + 1 - MIN_ORDER = k + 1 := by omega
      rw [this]
      rcases hcase with ⟨h1, h2⟩ | ⟨h1, h2⟩ <;> omega
    · exact ⟨b, List.mem_cons.mpr (Or.inr ((hmemPP b).mpr ⟨hb2, hb1, hb⟩)), hcov⟩
  · -- pairwise disjoint
    refine List.pairwise_cons.mpr ⟨?_, ?_⟩
    · intro b hb
      obtain ⟨hne2, hne1, hbP⟩ := (hmemPP b).mp hb
      have := hdisj2 b hbP hne1 hne2
      show L + 2 ^ (o + 1 - MIN_ORDER) ≤ b.1 ∨ b.1 + 2 ^ (b.2 - MIN_ORDER) ≤ L
      have hck : o + 1 - MIN_ORDER = k + 1 := by omega
      rw [hck]
      omega
    · exact List.Pairwise.sublist
        ((List.erase_sublist _ _).trans (List.erase_sublist _ _)) hC.disj
  · -- F ⊆ P
    intro b hb
    obtain ⟨hne2, hbF⟩ := (hmemFe b).mp hb
    have hbP := hC.sub b hbF
    by_cases hne1 : b = (p, o)
    · rw [hne1] at hbF
      exact absurd hbF hpF
    · exact List.mem_cons.mpr (Or.inr ((hmemPP b).mpr ⟨hne2, hne1, hbP⟩))
  · -- page orders
    intro b hb
    rcases List.mem_cons.mp hb with rfl | hb
    · refine ⟨hpo_L, ?_⟩
      intro j hj1 hj2
      have hck : o + 1 - MIN_ORDER = k + 1 := by omega
      have hj1' : j < L + 2 ^ (k + 1) := by
        have : (L, o + 1).1 + 2 ^ ((L, o + 1).2 - MIN_ORDER) = L + 2 ^ (k + 1) := by
          show L + 2 ^ (o + 1 - MIN_ORDER) = L + 2 ^ (k + 1)
          rw [hck]
        omega
      have hj2' : L < j := hj2
      by_cases hjR : j = R
      · rw [hjR]
        exact hpo_R
      · rw [hpo_other j (by omega) hjR]
        by_cases hjlow : j < L + 2 ^ k
        · exact (hC.ords _ hLoP).2 j (by show j < L + 2 ^ k; omega) hj2'
        · refine (hC.ords _ hRoP).2 j (by show j < R + 2 ^ k; omega) ?_
          show R < j
          omega
    · obtain ⟨hne2, hne1, hbP⟩ := (hmemPP b).mp hb
      have hdb := hdisj2 b hbP hne1 hne2
      have hsz : 0 < 2 ^ (b.2 - MIN_ORDER) := Nat.pos_pow_of_pos _ (by omega)
      refine ⟨?_, ?_⟩
      · rw [hpo_other b.1 (by omega) (by omega)]
        exact (hC.ords b hbP).1
      · intro j hj1 hj2
        rw [hpo_other j (by omega) (by omega)]
        exact (hC.ords b hbP).2 j hj1 hj2
  · -- free lists
    intro o2 ho2
    rw [hfl o2]
    refine ⟨((hC.lists o2 ho2).1).erase _, ?_, ?_⟩
    · intro x hx
      have hxs := List.mem_of_mem_erase hx
      have hxbd : x ≠ bd := ((hC.lists o2 ho2).1.mem_erase_iff.mp hx).1
      have hxF := (hC.flist_iff ho2).mp hxs
      refine (hmemFe _).mpr ⟨?_, hxF⟩
      intro heq
      injection heq with u1 u2
      exact hxbd u1
    · intro b hb hbo
      obtain ⟨hne2, hbF⟩ := (hmemFe b).mp hb
      have hbl := (hC.lists o2 ho2).2.2 b hbF hbo
      refine (List.mem_erase_of_ne ?_).mpr hbl
      intro heq
      apply hne2
      have hbeq : (b.1, b.2) = b := rfl
      have hbF' : (bd, b.2) ∈ F := by rw [← heq, hbeq]; exact hbF
      have h2 := hbdhead b.2 (hC.sub _ hbF')
      rw [← hbeq, heq, hbo, ← h2, hbo]
  · -- no free buddy pair remains
    intro b hb hbud
    obtain ⟨hne2, hbF⟩ := (hmemFe b).mp hb
    obtain ⟨hne2', hbudF⟩ := (hmemFe _).mp hbud
    exact hN b hbF hbudF
  · -- the merged block is not free
    intro hm
    obtain ⟨hne2, hmF⟩ := (hmemFe _).mp hm
    have := hheadL _ (hC.sub _ hmF)
    omega
  · -- allocated blocks: the freed one disappears, the merged one appears
    intro b
    constructor
    · intro ⟨hbP3, hbF3⟩
      rcases List.mem_cons.mp hbP3 with rfl | hbP3
      · exact Or.inr rfl
      · obtain ⟨hne2, hne1, hbP⟩ := (hmemPP b).mp hbP3
        refine Or.inl ⟨hbP, ?_, hne1⟩
        intro hbF
        exact hbF3 ((hmemFe b).mpr ⟨hne2, hbF⟩)
    · intro hb
      rcases hb with ⟨hbP, hbF, hne1⟩ | rfl
      · have hne2 : b ≠ (bd, o) := by
          intro heq
          rw [heq] at hbF
          exact hbF hbdF
        refine ⟨List.mem_cons.mpr (Or.inr ((hmemPP b).mpr ⟨hne2, hne1, hbP⟩)), ?_⟩
        intro hm
        exact hbF ((hmemFe b).mp hm).2
      · refine ⟨List.mem_cons_self _ _, ?_⟩
        intro hm
        obtain ⟨hne2, hmF⟩ := (hmemFe _).mp hm
        have := hheadL _ (hC.sub _ hmF)
        omega

theorem buddy_freeAux_spec : ∀ (fuel : Nat) (s : BuddyState) (P F : List Block) (p o : Nat),
    InvCore s P F → NoBuddyPair F → (p, o) ∈ P → (p, o) ∉ F →
    MAX_ORDER + 1 - o ≤ fuel →
    ∃ s', buddy_freeAux fuel (PAGE_TO_ADDR p) s = some s' ∧
      s'.mem = s.mem ∧
      ∃ P' F', InvCore s' P' F' ∧ NoBuddyPair F' ∧
        (∀ b : Block, (b ∈ P' ∧ b ∉ F') ↔ (b ∈ P ∧ b ∉ F ∧ b ≠ (p, o))) := by
  intro fuel
  induction fuel with
  | zero =>
    intro s P F p o hC hN hpP hpF hfuel
    exfalso
    obtain ⟨h1, h2, h3, h4⟩ := hC.good _ hpP
    simp only at h2
    have hX : MAX_ORDER = 20 := rfl
    omega
  | succ fl ih =>
    intro s P F p o hC hN hpP hpF hfuel
    have hM : MIN_ORDER = 12 := rfl
    have hX : MAX_ORDER = 20 := rfl
    have hNP : NPAGES = 256 := rfl
    obtain ⟨hg1, hg2, hg3, hg4⟩ := hC.good _ hpP
    simp only at hg1 hg2 hg3 hg4
    have hp256 : p < 256 := by
      have := hC.headP_lt hpP
      omega
    have hpp : ADDR_TO_PAGE (PAGE_TO_ADDR p) = p := by
      show p * PAGE_SIZE / PAGE_SIZE = p
      have h1 : PAGE_SIZE = 4096 := rfl
      rw [h1]
      omega
    have hord : getPageOrder s p = (o : Int) := (hC.ords _ hpP).1
    have hguard : (MIN_ORDER : Int) ≤ ((o : Nat) : Int) ∧
        ((o : Nat) : Int) ≤ (MAX_ORDER : Int) :=
      ⟨by exact_mod_cast hg1, by exact_mod_cast hg2⟩
    have hbdidx : ADDR_TO_PAGE (BUDDY_ADDR (PAGE_TO_ADDR p) o) = p ^^^ 2 ^ (o - MIN_ORDER) :=
      addr_buddy_idx o (by omega) (by omega) p hp256
    set bd := p ^^^ 2 ^ (o - MIN_ORDER) with hbddef
    by_cases hmem : bd ∈ getFL s.freeArea o
    · -- the buddy is free: merge and recurse
      have hbdF : (bd, o) ∈ F := (hC.flist_iff hg2).mp hmem
      have hbdP : (bd, o) ∈ P := hC.sub _ hbdF
      have hk9 : o - MIN_ORDER < 9 := by omega
      have hxf := xor_facts _ hk9 p hp256 hg3
      have hbdne : bd ≠ p := by rw [hbddef]; exact hxf.2.2.1
      set Lv := if bd < p then bd else p with hLv
      set Rv := if bd < p then p else bd with hRv
      have hLmin : Lv = min p bd := by
        rw [hLv]
        split_ifs with h <;> omega
      have hRmax : Rv = max p bd := by
        rw [hRv]
        split_ifs with h <;> omega
      have hLRne : Lv ≠ Rv := by
        rw [hLmin, hRmax]
        rcases min_choice p bd with h | h <;> rcases max_choice p bd with h2 | h2 <;> omega
      have hLoP : (Lv, o) ∈ P := by
        rw [hLmin]
        rcases min_choice p bd with h | h <;> rw [h]
        · exact hpP
        · exact hbdP
      have hvalL : getPageOrder (setOrder Rv (-1) s) Lv = (o : Int) := by
        rw [getPageOrder_setOrder_ne _ (fun h => hLRne h.symm)]
        exact (hC.ords _ hLoP).1
      obtain ⟨ho19, hLP1, hC3, hN3, hLF3, hiff3⟩ :=
        merge_one_step hC hN hpP hpF hbddef hbdF hLmin hRmax rfl
      have hL256 : Lv < 256 := by
        rw [hLmin]
        rcases min_choice p bd with h | h <;> omega
      have hpoL : getPageOrder
          (listDel bd (setOrder Lv ((o : Int) + 1) (setOrder Rv (-1) s))) Lv
          = (o : Int) + 1 := by
        show getPageOrder (setOrder Lv ((o : Int) + 1) (setOrder Rv (-1) s)) Lv = (o : Int) + 1
        rw [getPageOrder_setOrder_self _ (by
          simp only [pageOrder_length_setOrder, hC.lenPO]
          omega)]
      have hguard2 : getPageOrder
          (listDel bd (setOrder Lv ((o : Int) + 1) (setOrder Rv (-1) s))) Lv
          ≤ (MAX_ORDER : Int) := by
        rw [hpoL]
        have : ((o : Int) + 1) = ((o + 1 : Nat) : Int) := by push_cast; ring
        rw [this]
        exact_mod_cast ho19
      -- the model takes exactly one merge step
      have hstep : buddy_freeAux (fl + 1) (PAGE_TO_ADDR p) s =
          buddy_freeAux fl (PAGE_TO_ADDR Lv)
            (listDel bd (setOrder Lv ((o : Int) + 1) (setOrder Rv (-1) s))) := by
        rw [buddy_freeAux.eq_def]
        simp only
        rw [hpp, hord]
        rw [if_pos (show p < NPAGES by omega)]
        rw [if_pos hguard]
        simp only [Int.toNat_natCast]
        rw [hbdidx]
        rw [if_neg (by
          intro hempty
          rw [List.isEmpty_iff] at hempty
          rw [hempty] at hmem
          exact List.not_mem_nil _ hmem)]
        rw [if_pos (show (getFL s.freeArea o).contains bd = true from
          List.elem_iff.mpr hmem)]
        rw [hvalL]
        rw [if_pos hguard2]
      -- apply the induction hypothesis to the merged block
      obtain ⟨s', heq, hmem', P', F', hC', hN', hiff'⟩ :=
        ih (listDel bd (setOrder Lv ((o : Int) + 1) (setOrder Rv (-1) s)))
          ((Lv, o + 1) :: (P.erase (p, o)).erase (bd, o)) (F.erase (bd, o))
          Lv (o + 1) hC3 hN3 (List.mem_cons_self _ _) hLF3 (by omega)
      refine ⟨s', by rw [hstep]; exact heq, by rw [hmem']; rfl, P', F', hC', hN', ?_⟩
      intro b
      rw [hiff' b]
      constructor
      · intro ⟨h1, h2, h3⟩
        obtain h4 := (hiff3 b).mp ⟨h1, h2⟩
        rcases h4 with ⟨hbP, hbF, hbne⟩ | rfl
        · exact ⟨hbP, hbF, hbne⟩
        · exact absurd rfl h3
      · intro ⟨hbP, hbF, hbne⟩
        have h4 := (hiff3 b).mpr (Or.inl ⟨hbP, hbF, hbne⟩)
        refine ⟨h4.1, h4.2, ?_⟩
        intro heq2
        rw [heq2] at hbP
        exact hLP1 hbP
    · -- the buddy is not free: insert into the free list
      obtain ⟨hCA, hNA⟩ := free_insert_step hC hN hpP hpF hg2 hbddef
        (fun h => hmem ((hC.flist_iff hg2).mpr h))
      have hstep : buddy_freeAux (fl + 1) (PAGE_TO_ADDR p) s = some (listAdd p o s) := by
        rw [buddy_freeAux.eq_def]
        simp only
        rw [hpp, hord]
        rw [if_pos (show p < NPAGES by omega)]
        rw [if_pos hguard]
        simp only [Int.toNat_natCast]
        rw [hbdidx]
        by_cases hempty : (getFL s.freeArea o).isEmpty
        · rw [if_pos hempty]
        · rw [if_neg hempty]
          rw [if_neg (show ¬ (getFL s.freeArea o).contains bd = true from
            fun h => hmem (List.elem_iff.mp h))]
      refine ⟨listAdd p o s, hstep, rfl, P, (p, o) :: F, hCA, hNA, ?_⟩
      intro b
      constructor
      · intro ⟨h1, h2⟩
        refine ⟨h1, ?_, ?_⟩
        · intro hbF
          exact h2 (List.mem_cons.mpr (Or.inr hbF))
        · intro heq2
          rw [heq2] at h2
          exact h2 (List.mem_cons_self _ _)
      · intro ⟨h1, h2, h3⟩
        refine ⟨h1, ?_⟩
        intro hbm
        rcases List.mem_cons.mp hbm with heq2 | hbF
        · exact h3 heq2
        · exact h2 hbF

theorem buddy_free_spec (s : BuddyState) (P F : List Block) (p o : Nat)
    (hI : InvState s P F) (hpP : (p, o) ∈ P) (hpF : (p, o) ∉ F) :
    ∃ s', buddy_free (some (PAGE_TO_ADDR p)) s = some s' ∧ s'.mem = s.mem ∧
      ∃ P' F', InvState s' P' F' ∧
        (∀ b : Block, (b ∈ P' ∧ b ∉ F') ↔ (b ∈ P ∧ b ∉ F ∧ b ≠ (p, o))) := by
  obtain ⟨hC, hN⟩ := hI
  obtain ⟨s', heq, hm, P', F', hC', hN', hiff⟩ :=
    buddy_freeAux_spec 32 s P F p o hC hN hpP hpF (by
      have hX : MAX_ORDER = 20 := rfl
      omega)
  exact ⟨s', heq, hm, P', F', ⟨hC', hN'⟩, hiff⟩

theorem BuddyState.ext' {a b : BuddyState} (h1 : a.pageOrder = b.pageOrder)
    (h2 : a.freeArea = b.freeArea) (h3 : a.mem = b.mem) : a = b := by
  obtain ⟨x1, x2, x3⟩ := a
  obtain ⟨y1, y2, y3⟩ := b
  simp only at h1 h2 h3
  rw [h1, h2, h3]

theorem nodup_singleton_of_mem {l : List Nat} {a : Nat} (hn : l.Nodup) (hm : a ∈ l)
    (hall : ∀ x ∈ l, x = a) : l = [a] := by
  cases l with
  | nil => exact absurd hm (List.not_mem_nil a)
  | cons b t =>
    have hb : b = a := hall b (List.mem_cons_self _ _)
    subst hb
    have ht : t = [] := by
      rw [List.eq_nil_iff_forall_not_mem]
      intro x hx
      have := hall x (List.mem_cons.mpr (Or.inr hx))
      subst this
      exact (List.nodup_cons.mp hn).1 hx
    rw [ht]

/-- In an invariant state in which every block is free, the partition is
the single full-arena block and the tables equal the initial ones. -/
theorem all_free_eq_init (s : BuddyState) (P F : List Block)
    (hC : InvCore s P F) (hN : NoBuddyPair F) (hall : ∀ b ∈ P, b ∈ F) :
    s.pageOrder = buddy_init.pageOrder ∧ s.freeArea = buddy_init.freeArea := by
  have hM : MIN_ORDER = 12 := rfl
  have hX : MAX_ORDER = 20 := rfl
  have hNP : NPAGES = 256 := rfl
  -- no block of order below MAX_ORDER can exist when everything is free
  have hstep : ∀ o, MIN_ORDER ≤ o → o < MAX_ORDER → (∀ b ∈ P, o ≤ b.2) →
      ∀ b ∈ P, o + 1 ≤ b.2 := by
    intro o h12 h20 hmin b hb
    by_contra hcon
    obtain ⟨x, ox⟩ := b
    have hox : o = ox := by
      have := hmin _ hb
      simp only at this hcon ⊢
      omega
    subst hox
    obtain ⟨hb1, hb2, hb3, hb4⟩ := hC.good _ hb
    simp only at hb1 hb2 hb3 hb4
    set k := o - MIN_ORDER with hk
    have hk8 : k < 8 := by omega
    have hx256 : x < 256 := by
      have := hC.headP_lt hb
      omega
    have hxf := xor_facts k (by omega) x hx256 hb3
    have hbdrange : (x ^^^ 2 ^ k) + 2 ^ k ≤ 256 := xor_in_range k hk8 x hx256 hb3
    set bd := x ^^^ 2 ^ k with hbd
    have hbd256 : bd < NPAGES := by
      have : 0 < (2:Nat) ^ k := Nat.pos_pow_of_pos _ (by omega)
      omega
    obtain ⟨b', hb', hcov'⟩ := hC.cover bd hbd256
    have hb'2 : o ≤ b'.2 := hmin _ hb'
    have hshape := buddy_pair_shape (by omega) hx256 hb3
    have hpow : (2 : Nat) ^ (k + 1) = 2 ^ k + 2 ^ k := by rw [pow_succ]; ring
    rcases Nat.eq_or_lt_of_le hb'2 with heq | hlt
    · -- a free buddy at the same order: contradicts NoBuddyPair
      obtain ⟨y, oy⟩ := b'
      simp only at heq
      subst heq
      obtain ⟨hc1, hc2, hc3, hc4⟩ := hC.good _ hb'
      simp only at hc1 hc2 hc3 hc4
      have hbdal : bd % 2 ^ k = 0 := by rw [hbd]; exact hxf.1
      have hcov'' : y ≤ bd ∧ bd < y + 2 ^ k := hcov'
      have hnest := aligned_nest (le_refl k) hbdal hc3 (le_refl bd)
        (by omega) hcov''.1 hcov''.2
      have hybd : y = bd := by omega
      have hxF : (x, o) ∈ F := hall _ hb
      have hyF : (bd, o) ∈ F := by
        have h5 := hall _ hb'
        rw [hybd] at h5
        exact h5
      apply hN (x, o) hxF
      show (x ^^^ 2 ^ (o - MIN_ORDER), o) ∈ F
      rw [← hk, ← hbd]
      exact hyF
    · -- a coarser block covering the buddy would cover this block too
      obtain ⟨y, oy⟩ := b'
      simp only at hlt
      obtain ⟨hc1, hc2, hc3, hc4⟩ := hC.good _ hb'
      simp only at hc1 hc2 hc3 hc4
      set L := min x bd with hL
      have hLal : L % 2 ^ (k + 1) = 0 := by rw [hL, hbd]; exact hshape.1
      have hmaxL : max x bd = L + 2 ^ k := by rw [hL, hbd]; exact hshape.2
      have hcovL : L ≤ bd ∧ bd < L + 2 ^ (k + 1) := by
        rcases min_choice x bd with h | h <;> rcases max_choice x bd with h2 | h2 <;> omega
      have hcov'' : y ≤ bd ∧ bd < y + 2 ^ (oy - MIN_ORDER) := hcov'
      have hnest := aligned_nest (show k + 1 ≤ oy - MIN_ORDER by omega) hLal hc3
        hcovL.1 hcovL.2 hcov''.1 hcov''.2
      have hcovx : y ≤ x ∧ x < y + 2 ^ (oy - MIN_ORDER) := by
        rcases min_choice x bd with h | h <;> omega
      have := hC.cover_unique hb' hb (⟨hcovx.1, hcovx.2⟩ : coversB (y, oy) x)
        (coversB_self : coversB (x, o) x)
      injection this with u1 u2
      omega
  -- hence every block has order MAX_ORDER, and so head 0
  have hametric : ∀ d : Nat, MIN_ORDER + d ≤ MAX_ORDER → ∀ b ∈ P, MIN_ORDER + d ≤ b.2 := by
    intro d
    induction d with
    | zero =>
      intro h b hb
      exact (hC.good _ hb).1
    | succ d ihd =>
      intro h b hb
      have := hstep (MIN_ORDER + d) (by omega) (by omega) (ihd (by omega)) b hb
      omega
  have hall20 : ∀ b ∈ P, b = (0, MAX_ORDER) := by
    intro b hb
    obtain ⟨x, ox⟩ := b
    have h1 : MIN_ORDER + 8 ≤ ox := hametric 8 (by omega) _ hb
    obtain ⟨hc1, hc2, hc3, hc4⟩ := hC.good _ hb
    simp only at hc1 hc2 hc3 hc4
    have hox : ox = MAX_ORDER := by omega
    subst hox
    have hx0 : x = 0 := by
      have h2 : (2:Nat) ^ (MAX_ORDER - MIN_ORDER) = 256 := by norm_num [MAX_ORDER, MIN_ORDER]
      omega
    rw [hx0]
  have h020 : (0, MAX_ORDER) ∈ P := by
    obtain ⟨b, hb, hcov⟩ := hC.cover 0 (by omega)
    rw [← hall20 b hb]
    exact hb
  have h020F : (0, MAX_ORDER) ∈ F := hall _ h020
  constructor
  · -- the page table equals the initial one
    refine List.ext_getElem? ?_
    intro n
    have hlen : s.pageOrder.length = 256 := by rw [hC.lenPO, hNP]
    have hleni : buddy_init.pageOrder.length = 256 := by
      show ((List.replicate NPAGES (-1 : Int)).set 0 (MAX_ORDER : Int)).length = 256
      rw [List.length_set, List.length_replicate]
      exact hNP
    by_cases hn : n < 256
    · have hval : s.pageOrder[n]? = some (getPageOrder s n) := by
        rw [List.getElem?_eq_getElem (by omega)]
        show _ = some (s.pageOrder.getD n (-1))
        rw [List.getD_eq_getElem?_getD, List.getElem?_eq_getElem (by omega)]
        rfl
      have hvali : buddy_init.pageOrder[n]? =
          some (if n = 0 then (MAX_ORDER : Int) else -1) := by
        show ((List.replicate NPAGES (-1 : Int)).set 0 (MAX_ORDER : Int))[n]? = _
        rw [List.getElem?_set]
        by_cases h0 : n = 0
        · rw [if_pos h0.symm, if_pos (by rw [List.length_replicate]; omega), if_pos h0]
        · rw [if_neg (fun hh => h0 hh.symm), List.getElem?_replicate,
            if_pos (show n < NPAGES by omega), if_neg h0]
      rw [hval, hvali]
      by_cases h0 : n = 0
      · subst h0
        rw [if_pos rfl]
        exact congrArg some (hC.ords _ h020).1
      · rw [if_neg h0]
        refine congrArg some ((hC.ords _ h020).2 n ?_ (by omega))
        show n < 0 + 2 ^ (MAX_ORDER - MIN_ORDER)
        have h2 : (2:Nat) ^ (MAX_ORDER - MIN_ORDER) = 256 := by norm_num [MAX_ORDER, MIN_ORDER]
        omega
    · rw [List.getElem?_eq_none (by omega), List.getElem?_eq_none (by rw [hleni]; omega)]
  · -- the free lists equal the initial ones
    refine List.ext_getElem? ?_
    intro n
    have hlen : s.freeArea.length = 21 := by rw [hC.lenFA]; omega
    have hleni : buddy_init.freeArea.length = 21 := by
      show ((List.replicate (MAX_ORDER + 1) ([] : List Nat)).set MAX_ORDER [0]).length = 21
      rw [List.length_set, List.length_replicate]
      omega
    by_cases hn : n < 21
    · have hval : s.freeArea[n]? = some (getFL s.freeArea n) := by
        rw [List.getElem?_eq_getElem (by omega)]
        show _ = some (s.freeArea.getD n [])
        rw [List.getD_eq_getElem?_getD, List.getElem?_eq_getElem (by omega)]
        rfl
      have hvali : buddy_init.freeArea[n]? =
          some (if n = MAX_ORDER then [0] else []) := by
        show ((List.replicate (MAX_ORDER + 1) ([] : List Nat)).set MAX_ORDER [0])[n]? = _
        rw [List.getElem?_set]
        by_cases h0 : n = MAX_ORDER
        · rw [if_pos h0.symm, if_pos (by rw [List.length_replicate]; omega), if_pos h0]
        · rw [if_neg (fun hh => h0 hh.symm), List.getElem?_replicate,
            if_pos (show n < MAX_ORDER + 1 by omega), if_neg h0]
      rw [hval, hvali]
      refine congrArg some ?_
      by_cases h0 : n = MAX_ORDER
      · subst h0
        rw [if_pos rfl]
        refine nodup_singleton_of_mem (hC.lists _ (le_refl _)).1
          ((hC.flist_iff (le_refl _)).mpr h020F) ?_
        intro x hx
        have hxF := (hC.flist_iff (le_refl _)).mp hx
        have := hall20 _ (hC.sub _ hxF)
        injection this with u1 u2
      · rw [if_neg h0]
        rw [List.eq_nil_iff_forall_not_mem]
        intro x hx
        have hxF := (hC.flist_iff (by omega)).mp hx
        have := hall20 _ (hC.sub _ hxF)
        injection this with u1 u2
        exact h0 u2
    · rw [List.getElem?_eq_none (by omega), List.getElem?_eq_none (by rw [hleni]; omega)]

set_option maxRecDepth 10000 in
theorem InvState_init : InvState buddy_init [(0, MAX_ORDER)] [(0, MAX_ORDER)] := by decide

theorem PAGE_TO_ADDR_inj {a b : Nat} (h : PAGE_TO_ADDR a = PAGE_TO_ADDR b) : a = b := by
  have h1 : PAGE_SIZE = 4096 := rfl
  unfold PAGE_TO_ADDR at h
  rw [h1] at h
  omega

theorem runOps_inv : ∀ (ops : List Op) (s : BuddyState) (out : List Nat) (P F : List Block)
    (s' : BuddyState) (out' : List Nat),
    InvState s P F → s.mem = buddy_init.mem →
    (∀ a ∈ out, ∃ b : Block, b ∈ P ∧ b ∉ F ∧ PAGE_TO_ADDR b.1 = a) →
    (∀ b : Block, b ∈ P → b ∉ F → PAGE_TO_ADDR b.1 ∈ out) →
    out.Nodup →
    runOps ops s out = some (s', out') →
    ∃ P' F', InvState s' P' F' ∧ s'.mem = buddy_init.mem ∧
      (∀ a ∈ out', ∃ b : Block, b ∈ P' ∧ b ∉ F' ∧ PAGE_TO_ADDR b.1 = a) ∧
      (∀ b : Block, b ∈ P' → b ∉ F' → PAGE_TO_ADDR b.1 ∈ out') ∧
      out'.Nodup := by
  intro ops
  induction ops with
  | nil =>
    intro s out P F s' out' hI hmem hR1 hR2 hnd hrun
    rw [runOps] at hrun
    injection hrun with hrun
    injection hrun with h1 h2
    subst h1
    subst h2
    exact ⟨P, F, hI, hmem, hR1, hR2, hnd⟩
  | cons op rest ihop =>
    intro s out P F s' out' hI hmem hR1 hR2 hnd hrun
    cases op with
    | alloc sz =>
      rw [runOps] at hrun
      cases hca : buddy_alloc sz s with
      | none =>
        rw [hca] at hrun
        exact absurd hrun (by simp)
      | some r =>
        rw [hca] at hrun
        obtain ⟨res1, s2⟩ := r
        have hspec := buddy_alloc_spec s P F sz (res1, s2) hI hca
        cases res1 with
        | none =>
          simp only at hrun
          rcases hspec with heq | ⟨i, t, f, hres1, -⟩
          · injection heq with e1 e2
            rw [e2] at hrun
            exact ihop s out P F s' out' hI hmem hR1 hR2 hnd hrun
          · exact absurd hres1 (by simp)
        | some a =>
          simp only at hrun
          rcases hspec with heq | ⟨i, t, f, hres1, hgo, ht1, ht2, htf, hf2, hifF,
            P2, F2, hI2, hmem2, ⟨hitP2, hitF2⟩, hiff⟩
          · exact absurd (congrArg Prod.fst heq) (by simp)
          · simp only at hres1 hmem2
            injection hres1 with hres1
            subst hres1
            refine ihop s2 (PAGE_TO_ADDR i :: out) P2 F2 s' out' hI2
              (by rw [hmem2]; exact hmem) ?_ ?_ ?_ hrun
            · intro a' ha'
              rcases List.mem_cons.mp ha' with rfl | ha'
              · exact ⟨(i, t), hitP2, hitF2, rfl⟩
              · obtain ⟨b, hbP, hbF, hba⟩ := hR1 a' ha'
                refine ⟨b, ?_, ?_, hba⟩
                · exact ((hiff b).mpr (Or.inl ⟨hbP, hbF⟩)).1
                · exact ((hiff b).mpr (Or.inl ⟨hbP, hbF⟩)).2
            · intro b hbP2 hbF2
              rcases (hiff b).mp ⟨hbP2, hbF2⟩ with ⟨hbP, hbF⟩ | rfl
              · exact List.mem_cons.mpr (Or.inr (hR2 b hbP hbF))
              · exact List.mem_cons_self _ _
            · refine List.Nodup.cons ?_ hnd
              intro hmemout
              obtain ⟨b, hbP, hbF, hba⟩ := hR1 _ hmemout
              have hbi : b.1 = i := PAGE_TO_ADDR_inj hba
              have hbP' : (i, b.2) ∈ P := by
                have hbeq : (b.1, b.2) = b := rfl
                rw [← hbeq, hbi] at hbP
                exact hbP
              have := hI.1.head_unique hbP' (hI.1.sub _ hifF) rfl
              injection this with u1 u2
              have hbFeq : b = (i, f) := by
                have hbeq : (b.1, b.2) = b := rfl
                rw [← hbeq, hbi, u2]
              rw [hbFeq] at hbF
              exact hbF hifF
    | free a =>
      rw [runOps] at hrun
      by_cases hmemout : a ∈ out
      · rw [if_pos hmemout] at hrun
        obtain ⟨b0, hb0P, hb0F, hb0a⟩ := hR1 a hmemout
        obtain ⟨p, o⟩ := b0
        have hpa : PAGE_TO_ADDR p = a := hb0a
        obtain ⟨s2, heq, hmem2, P2, F2, hI2, hiff⟩ :=
          buddy_free_spec s P F p o hI hb0P hb0F
        rw [hpa] at heq
        rw [heq] at hrun
        simp only at hrun
        refine ihop s2 (out.erase a) P2 F2 s' out' hI2 (by rw [hmem2]; exact hmem)
          ?_ ?_ (hnd.erase a) hrun
        · intro a' ha'
          have ha'o : a' ∈ out := List.mem_of_mem_erase ha'
          have ha'ne : a' ≠ a := (hnd.mem_erase_iff.mp ha').1
          obtain ⟨b, hbP, hbF, hba⟩ := hR1 a' ha'o
          have hbne : b ≠ (p, o) := by
            intro heq2
            rw [heq2] at hba
            simp only at hba
            exact ha'ne (by rw [← hba, hpa])
          exact ⟨b, ((hiff b).mpr ⟨hbP, hbF, hbne⟩).1, ((hiff b).mpr ⟨hbP, hbF, hbne⟩).2, hba⟩
        · intro b hbP2 hbF2
          obtain ⟨hbP, hbF, hbne⟩ := (hiff b).mp ⟨hbP2, hbF2⟩
          have hmem3 := hR2 b hbP hbF
          refine (List.mem_erase_of_ne ?_).mpr hmem3
          intro heq2
          apply hbne
          have hbp : b.1 = p := PAGE_TO_ADDR_inj (by rw [heq2, hpa])
          have hbP' : (p, b.2) ∈ P := by
            have hbeq : (b.1, b.2) = b := rfl
            rw [← hbeq, hbp] at hbP
            exact hbP
          have := hI.1.head_unique hbP' hb0P rfl
          injection this with u1 u2
          have hbeq : (b.1, b.2) = b := rfl
          rw [← hbeq, hbp, u2]
      · rw [if_neg hmemout] at hrun
        exact absurd hrun (by simp)

/-- C4: for every finite trace of `buddy_alloc` and `buddy_free` calls from
the freshly initialized allocator, in which each free targets an address
returned by a preceding alloc that is still outstanding and, at the end of
the trace, every allocated address has been freed, the final allocator
state is identical to `buddy_init`: page orders, free lists, and arena
bytes all equal the initial ones. -/
theorem C4_roundtrip (ops : List Op) (s' : BuddyState) (out' : List Nat)
    (hrun : runOps ops buddy_init [] = some (s', out')) (hout : out' = []) :
    s' = buddy_init := by
  subst hout
  obtain ⟨P', F', ⟨hC', hN'⟩, hmem, hR1, hR2, hnd⟩ :=
    runOps_inv ops buddy_init [] [(0, MAX_ORDER)] [(0, MAX_ORDER)] s' []
      InvState_init rfl
      (by intro a ha; exact absurd ha (List.not_mem_nil a))
      (by
        intro b hb hbF
        rcases List.mem_cons.mp hb with rfl | h
        · exact absurd (List.mem_cons_self _ _) hbF
        · exact absurd h (List.not_mem_nil _))
      List.nodup_nil hrun
  have hall : ∀ b ∈ P', b ∈ F' := by
    intro b hb
    by_contra hbF
    exact absurd (hR2 b hb hbF) (List.not_mem_nil _)
  obtain ⟨h1, h2⟩ := all_free_eq_init s' P' F' hC' hN' hall
  exact BuddyState.ext' h1 h2 hmem

/-! ### The invariant implies the direct no-free-buddies statement -/

theorem noFreeBuddies_of_inv {s : BuddyState} {P F : List Block}
    (h : InvState s P F) : NoFreeBuddies s := by
  obtain ⟨hC, hN⟩ := h
  intro o ho1 ho2 i hi hbud
  have hiF : (i, o) ∈ F := (hC.flist_iff ho2).mp hi
  have hbF : (i ^^^ 2 ^ (o - MIN_ORDER), o) ∈ F := (hC.flist_iff ho2).mp hbud
  exact hN (i, o) hiF hbF

/-! ### The operations neither read nor write the arena bytes -/

theorem splitBlock_mem : ∀ (cur : Nat) (s : BuddyState) (endO i : Nat)
    (r : Nat × BuddyState), splitBlock s cur endO i = some r → r.2.mem = s.mem := by
  intro cur
  induction cur with
  | zero =>
    intro s endO i r h
    rw [splitBlock.eq_def] at h
    by_cases hc : 0 = endO
    · rw [if_pos hc] at h
      injection h with h
      subst h
      rfl
    · rw [if_neg hc] at h
      exact Option.noConfusion h
  | succ c ih =>
    intro s endO i r h
    by_cases hc : c + 1 = endO
    · rw [splitBlock.eq_def, if_pos hc] at h
      injection h with h
      subst h
      rfl
    · rw [splitBlock_step_eq s c endO i hc] at h
      exact (ih _ _ _ _ h).trans rfl

theorem splitBlock_setMem : ∀ (cur : Nat) (s : BuddyState) (endO i : Nat) (m : Nat → Nat),
    splitBlock (setMem s m) cur endO i =
      Option.map (fun r => (r.1, setMem r.2 m)) (splitBlock s cur endO i) := by
  intro cur
  induction cur with
  | zero =>
    intro s endO i m
    rw [splitBlock.eq_def]
    conv_rhs => rw [splitBlock.eq_def]
    by_cases hc : 0 = endO
    · rw [if_pos hc, if_pos hc]
      rfl
    · rw [if_neg hc, if_neg hc]
      rfl
  | succ c ih =>
    intro s endO i m
    by_cases hc : c + 1 = endO
    · rw [splitBlock.eq_def]
      conv_rhs => rw [splitBlock.eq_def]
      rw [if_pos hc, if_pos hc]
      rfl
    · rw [splitBlock_step_eq (setMem s m) c endO i hc, splitBlock_step_eq s c endO i hc]
      exact ih (listAdd i c (listAdd (ADDR_TO_PAGE (BUDDY_ADDR (PAGE_TO_ADDR i) c)) c
        (listDel i (setOrder (ADDR_TO_PAGE (BUDDY_ADDR (PAGE_TO_ADDR i) c)) (c : Int)
          (setOrder i (c : Int) s))))) endO i m

theorem buddy_alloc_mem (size : Int) (s : BuddyState) (res : Option Nat × BuddyState)
    (h : buddy_alloc size s = some res) : res.2.mem = s.mem := by
  unfold buddy_alloc at h
  cases hgo : getOrder size with
  | none => rw [hgo] at h; exact Option.noConfusion h
  | some v =>
    rw [hgo] at h
    simp only at h
    by_cases hv : v < 0
    · rw [if_pos hv] at h
      injection h with h
      rw [← h]
    · rw [if_neg hv] at h
      cases hsc : allocScan s.freeArea v 64 with
      | none => rw [hsc] at h; exact Option.noConfusion h
      | some f =>
        rw [hsc] at h
        simp only at h
        by_cases hf : f < 0
        · rw [if_pos hf] at h
          injection h with h
          rw [← h]
        · rw [if_neg hf] at h
          cases hl : getFL s.freeArea f.toNat with
          | nil => rw [hl] at h; exact Option.noConfusion h
          | cons i rest =>
            rw [hl] at h
            simp only at h
            cases hsp : splitBlock s f.toNat v.toNat i with
            | none => rw [hsp] at h; exact Option.noConfusion h
            | some r =>
              obtain ⟨a, s2⟩ := r
              rw [hsp] at h
              simp only at h
              injection h with h
              rw [← h]
              exact splitBlock_mem _ _ _ _ _ hsp

theorem buddy_alloc_setMem (size : Int) (s : BuddyState) (m : Nat → Nat) :
    buddy_alloc size (setMem s m) =
      Option.map (fun r => (r.1, setMem r.2 m)) (buddy_alloc size s) := by
  unfold buddy_alloc
  cases hgo : getOrder size with
  | none => rfl
  | some v =>
    simp only
    by_cases hv : v < 0
    · simp only [if_pos hv]
      rfl
    · simp only [if_neg hv]
      have hfa : (setMem s m).freeArea = s.freeArea := rfl
      rw [hfa]
      cases hsc : allocScan s.freeArea v 64 with
      | none => rfl
      | some f =>
        simp only
        by_cases hf : f < 0
        · simp only [if_pos hf]
          rfl
        · simp only [if_neg hf]
          cases hl : getFL s.freeArea f.toNat with
          | nil => rfl
          | cons i rest =>
            simp only
            rw [splitBlock_setMem]
            cases hsp : splitBlock s f.toNat v.toNat i with
            | none => rfl
            | some r =>
              obtain ⟨a, s2⟩ := r
              rfl

theorem buddy_freeAux_mem : ∀ (fuel addr : Nat) (s s' : BuddyState),
    buddy_freeAux fuel addr s = some s' → s'.mem = s.mem := by
  intro fuel
  induction fuel with
  | zero =>
    intro addr s s' h
    exact Option.noConfusion h
  | succ fl ih =>
    intro addr s s' h
    rw [buddy_freeAux.eq_def] at h
    simp only at h
    repeat' split at h
    all_goals try exact Option.noConfusion h
    all_goals try (injection h with h; subst h; rfl)
    all_goals exact (ih _ _ _ h).trans rfl

theorem buddy_freeAux_setMem : ∀ (fuel addr : Nat) (s : BuddyState) (m : Nat → Nat),
    buddy_freeAux fuel addr (setMem s m) =
      Option.map (fun t => setMem t m) (buddy_freeAux fuel addr s) := by
  intro fuel
  induction fuel with
  | zero => intro addr s m; rfl
  | succ fl ih =>
    intro addr s m
    obtain ⟨po, fa, mm⟩ := s
    rw [buddy_freeAux.eq_def]
    conv_rhs => rw [buddy_freeAux.eq_def]
    simp only [setMem, getPageOrder, getFL, setOrder, listAdd, listDel]
    split_ifs <;> first | rfl | exact ih _ ⟨_, _, mm⟩ m

/-! ### The claims -/

/-- C1: on any state satisfying the allocator invariant, a `buddy_alloc size`
call with `0 < size ≤ 2^MAX_ORDER` that returns an address returns the base
address of a block whose order `t` is the least order in
`[MIN_ORDER, MAX_ORDER]` with `2^t ≥ size`; the address is a multiple of
`2^t`, and the block at that address is allocated afterwards (in the
partition and not in the free set). -/
theorem C1_alloc_minimal_order (s : BuddyState) (P F : List Block) (size : Int)
    (hI : InvState s P F) (hpos : 0 < size) (hle : size ≤ 2 ^ MAX_ORDER)
    (a : Nat) (s' : BuddyState)
    (hcall : buddy_alloc size s = some (some a, s')) :
    ∃ t : Nat, MIN_ORDER ≤ t ∧ t ≤ MAX_ORDER ∧ size ≤ 2 ^ t ∧
      (∀ k : Nat, MIN_ORDER ≤ k → size ≤ 2 ^ k → t ≤ k) ∧
      a % 2 ^ t = 0 ∧
      ∃ P' F', InvState s' P' F' ∧ (ADDR_TO_PAGE a, t) ∈ P' ∧ (ADDR_TO_PAGE a, t) ∉ F' := by
  rcases buddy_alloc_spec s P F size (some a, s') hI hcall with heq |
    ⟨i, t, f, hres1, hgo, ht1, ht2, htf, hf2, hifF, P', F', hI', hmem', ⟨hitP, hitF⟩, hiff⟩
  · exact absurd (congrArg Prod.fst heq) (by simp)
  · have hres1' : some a = some (PAGE_TO_ADDR i) := hres1
    injection hres1' with ha
    subst ha
    have h230 : (2 : Int) ^ MAX_ORDER ≤ 2 ^ 30 := pow_le_pow_right₀ (by norm_num) (by decide)
    obtain ⟨o, ho1, ho2, homin, hoeq⟩ :=
      getOrder_pos (show (1:Int) ≤ size by omega) (by omega)
    have hto : t = o := by
      rw [hoeq] at hgo
      by_cases hgt : (MAX_ORDER : Int) < (o : Int)
      · rw [if_pos hgt] at hgo
        injection hgo with hgo
        omega
      · rw [if_neg hgt] at hgo
        injection hgo with hgo
        exact_mod_cast hgo.symm
    subst hto
    have hal : i % 2 ^ (t - MIN_ORDER) = 0 := (hI'.1.good _ hitP).2.2.1
    have hpp : ADDR_TO_PAGE (PAGE_TO_ADDR i) = i := by
      show i * PAGE_SIZE / PAGE_SIZE = i
      have h1 : PAGE_SIZE = 4096 := rfl
      rw [h1]
      omega
    have halign : PAGE_TO_ADDR i % 2 ^ t = 0 := by
      obtain ⟨q, hq⟩ := Nat.dvd_of_mod_eq_zero hal
      show i * PAGE_SIZE % 2 ^ t = 0
      have h1 : PAGE_SIZE = 2 ^ MIN_ORDER := rfl
      rw [h1, hq]
      have h2 : 2 ^ (t - MIN_ORDER) * 2 ^ MIN_ORDER = 2 ^ t := by
        rw [← pow_add]
        congr 1
        have hM : MIN_ORDER = 12 := rfl
        omega
      have h3 : 2 ^ (t - MIN_ORDER) * q * 2 ^ MIN_ORDER = q * 2 ^ t := by
        rw [← h2]
        ring
      rw [h3]
      exact Nat.mul_mod_left q (2 ^ t)
    refine ⟨t, ht1, ht2, ho2, homin, halign, P', F', hI', ?_, ?_⟩
    · rw [hpp]
      exact hitP
    · rw [hpp]
      exact hitF

theorem C1_witness : ∃ t : Nat, MIN_ORDER ≤ t ∧ t ≤ MAX_ORDER ∧ (5000 : Int) ≤ 2 ^ t ∧
    (∀ k : Nat, MIN_ORDER ≤ k → (5000 : Int) ≤ 2 ^ k → t ≤ k) ∧
    a5000 % 2 ^ t = 0 ∧
    ∃ P' F', InvState s5000 P' F' ∧ (ADDR_TO_PAGE a5000, t) ∈ P' ∧
      (ADDR_TO_PAGE a5000, t) ∉ F' :=
  C1_alloc_minimal_order buddy_init [(0, MAX_ORDER)] [(0, MAX_ORDER)] 5000 InvState_init
    (by norm_num) (by norm_num [MAX_ORDER]) a5000 s5000 rfl

/-- C2: the spec requires an explicit failure signal when every free list
from the target order up to `MAX_ORDER` is empty, and in particular that
after `buddy_alloc(2^MAX_ORDER)` succeeds on the fresh arena, a subsequent
`buddy_alloc(1)` fails with an explicit error.  The code instead runs into
undefined behaviour (modelled by the outer `none`): the scan re-increments
the `freeOrder = -1` failure marker to `0`, breaks on the uninitialized
`free_area[0]` head, and `list_entry` then dereferences a null pointer, so
the `freeOrder < 0` failure return is never reached. -/
theorem C2_exhausted_alloc_crashes :
    (∃ s1, buddy_alloc (2 ^ MAX_ORDER) buddy_init = some (some (PAGE_TO_ADDR 0), s1)) ∧
    buddy_alloc 1 sAfterBig = none :=
  ⟨⟨sAfterBig, rfl⟩, rfl⟩

/-- C3: one step of `buddy_free` on a page `p` whose stored order is `o`:
if the buddy (the page index of `BUDDY_ADDR` of `p`'s address at bit `o`)
is not a member of the free list of order `o` — whether that list is empty
or merely does not contain it — the page is inserted at the front of that
free list and the call returns; if the buddy is a member, the buddy is
removed from the free list, the lower-indexed page of the two survives with
its order incremented to `o + 1`, the higher-indexed page's order is set to
`-1`, and merging is re-attempted at the new order exactly when
`o + 1 ≤ MAX_ORDER`. -/
theorem C3_free_branch_behavior (s : BuddyState) (p o bd L R fuel : Nat)
    (hp : p < NPAGES) (hlen : NPAGES ≤ s.pageOrder.length)
    (ho1 : MIN_ORDER ≤ o) (ho2 : o ≤ MAX_ORDER)
    (hord : getPageOrder s p = (o : Int))
    (hbd : bd = ADDR_TO_PAGE (BUDDY_ADDR (PAGE_TO_ADDR p) o))
    (hL : L = if bd < p then bd else p) (hR : R = if bd < p then p else bd)
    (hbdord : bd ∈ getFL s.freeArea o → getPageOrder s bd = (o : Int)) :
    (bd ∉ getFL s.freeArea o →
      buddy_freeAux (fuel + 1) (PAGE_TO_ADDR p) s = some (listAdd p o s)) ∧
    (bd ∈ getFL s.freeArea o → o < MAX_ORDER →
      buddy_freeAux (fuel + 1) (PAGE_TO_ADDR p) s =
        buddy_freeAux fuel (PAGE_TO_ADDR L)
          (listDel bd (setOrder L ((o : Int) + 1) (setOrder R (-1) s)))) ∧
    (bd ∈ getFL s.freeArea o → o = MAX_ORDER →
      buddy_freeAux (fuel + 1) (PAGE_TO_ADDR p) s =
        some (listDel bd (setOrder L ((o : Int) + 1) (setOrder R (-1) s)))) := by
  have hM : MIN_ORDER = 12 := rfl
  have hX : MAX_ORDER = 20 := rfl
  have hNP : NPAGES = 256 := rfl
  have hpp : ADDR_TO_PAGE (PAGE_TO_ADDR p) = p := by
    show p * PAGE_SIZE / PAGE_SIZE = p
    have h1 : PAGE_SIZE = 4096 := rfl
    rw [h1]
    omega
  have hguard : (MIN_ORDER : Int) ≤ ((o : Nat) : Int) ∧
      ((o : Nat) : Int) ≤ (MAX_ORDER : Int) := by
    constructor <;> omega
  have hbdidx : ADDR_TO_PAGE (BUDDY_ADDR (PAGE_TO_ADDR p) o) = p ^^^ 2 ^ (o - MIN_ORDER) :=
    addr_buddy_idx o (by omega) (by omega) p (by omega)
  rw [hbdidx] at hbd
  have hbdne : bd ≠ p := by
    rw [hbd]
    intro hk
    have hc := congrArg (fun x => x ^^^ p) hk
    simp only at hc
    rw [Nat.xor_comm p (2 ^ (o - MIN_ORDER)), Nat.xor_assoc, Nat.xor_self, Nat.xor_zero] at hc
    have h3 : 0 < (2:Nat) ^ (o - MIN_ORDER) := Nat.pos_pow_of_pos _ (by norm_num)
    omega
  have hLlt : L < NPAGES := by
    rw [hL]
    split_ifs with h <;> omega
  have hLRne : L ≠ R := by
    rw [hL, hR]
    split_ifs with h <;> omega
  refine ⟨?_, ?_, ?_⟩
  · intro hmem
    rw [buddy_freeAux.eq_def]
    simp only
    rw [hpp, hord]
    rw [if_pos hp]
    rw [if_pos hguard]
    simp only [Int.toNat_natCast]
    rw [hbdidx, ← hbd]
    by_cases hempty : (getFL s.freeArea o).isEmpty
    · rw [if_pos hempty]
    · rw [if_neg hempty]
      rw [if_neg (show ¬ (getFL s.freeArea o).contains bd = true from
        fun h => hmem (List.elem_iff.mp h))]
  · intro hmem hlt
    have hLo : getPageOrder s L = (o : Int) := by
      rw [hL]
      split_ifs with h
      · exact hbdord hmem
      · exact hord
    have hvalL : getPageOrder (setOrder R (-1) s) L = (o : Int) := by
      rw [getPageOrder_setOrder_ne _ (fun hh => hLRne hh.symm)]
      exact hLo
    have hpoL : getPageOrder (listDel bd (setOrder L ((o : Int) + 1) (setOrder R (-1) s))) L
        = (o : Int) + 1 := by
      show getPageOrder (setOrder L ((o : Int) + 1) (setOrder R (-1) s)) L = (o : Int) + 1
      rw [getPageOrder_setOrder_self _ (by
        simp only [pageOrder_length_setOrder]
        omega)]
    rw [buddy_freeAux.eq_def]
    simp only
    rw [hpp, hord]
    rw [if_pos hp]
    rw [if_pos hguard]
    simp only [Int.toNat_natCast]
    rw [hbdidx, ← hbd]
    rw [if_neg (by
      intro hempty
      rw [List.isEmpty_iff] at hempty
      rw [hempty] at hmem
      exact List.not_mem_nil _ hmem)]
    rw [if_pos (show (getFL s.freeArea o).contains bd = true from List.elem_iff.mpr hmem)]
    rw [← hL, ← hR]
    rw [hvalL]
    rw [if_pos (by rw [hpoL]; omega)]
  · intro hmem heq
    have hLo : getPageOrder s L = (o : Int) := by
      rw [hL]
      split_ifs with h
      · exact hbdord hmem
      · exact hord
    have hvalL : getPageOrder (setOrder R (-1) s) L = (o : Int) := by
      rw [getPageOrder_setOrder_ne _ (fun hh => hLRne hh.symm)]
      exact hLo
    have hpoL : getPageOrder (listDel bd (setOrder L ((o : Int) + 1) (setOrder R (-1) s))) L
        = (o : Int) + 1 := by
      show getPageOrder (setOrder L ((o : Int) + 1) (setOrder R (-1) s)) L = (o : Int) + 1
      rw [getPageOrder_setOrder_self _ (by
        simp only [pageOrder_length_setOrder]
        omega)]
    rw [buddy_freeAux.eq_def]
    simp only
    rw [hpp, hord]
    rw [if_pos hp]
    rw [if_pos hguard]
    simp only [Int.toNat_natCast]
    rw [hbdidx, ← hbd]
    rw [if_neg (by
      intro hempty
      rw [List.isEmpty_iff] at hempty
      rw [hempty] at hmem
      exact List.not_mem_nil _ hmem)]
    rw [if_pos (show (getFL s.freeArea o).contains bd = true from List.elem_iff.mpr hmem)]
    rw [← hL, ← hR]
    rw [hvalL]
    rw [if_neg (by rw [hpoL]; omega)]

set_option maxRecDepth 10000 in
theorem C3_witness :
    buddy_freeAux 1 (PAGE_TO_ADDR 0) buddy_init = some (listAdd 0 20 buddy_init) :=
  (C3_free_branch_behavior buddy_init 0 20 256 0 256 0 (by decide) (by decide) (by decide)
    (by decide) (by decide) (by decide) (by decide) (by decide) (by decide)).1 (by decide)

theorem C4_witness :
    runOps [Op.alloc 5000, Op.free 0] buddy_init [] = some (buddy_init, []) := by
  have h := C4_roundtrip [Op.alloc 5000, Op.free 0] sRT.1 sRT.2 rfl rfl
  rw [show runOps [Op.alloc 5000, Op.free 0] buddy_init [] = some (sRT.1, sRT.2) from rfl, h]
  rfl

/-- C5: for every positive requested size up to `2^MAX_ORDER`, `getOrder`
returns the least order `o` in `[MIN_ORDER, MAX_ORDER]` with `2^o ≥ size`
(so an exact power of two is not rounded up).  The claimed failure half is
amended: it holds only up to `2^30`.  For `2^MAX_ORDER < size ≤ 2^30` the
function returns the failure value `-1`, but for `size > 2^30` (still a
valid 32-bit `int` up to `2^31 - 1`) the loop reaches `order = 31` and its
next test evaluates `1 << 31`, undefined behaviour for a signed 32-bit
`int`, so `getOrder` never returns (`none`) instead of reporting failure;
`C5_counterexample` exhibits this at `size = 2^30 + 1`. -/
theorem C5_getOrder_minimal (size : Int) :
    (0 < size → size ≤ 2 ^ MAX_ORDER →
      ∃ o : Nat, MIN_ORDER ≤ o ∧ o ≤ MAX_ORDER ∧ size ≤ 2 ^ o ∧
        (∀ k : Nat, MIN_ORDER ≤ k → size ≤ 2 ^ k → o ≤ k) ∧
        getOrder size = some (o : Int)) ∧
    (2 ^ MAX_ORDER < size → size ≤ 2 ^ 30 → getOrder size = some (-1)) ∧
    (2 ^ 30 < size → getOrder size = none) := by
  refine ⟨?_, ?_, fun h => getOrder_big h⟩
  · intro h1 h2
    have h230 : (2 : Int) ^ MAX_ORDER ≤ 2 ^ 30 := pow_le_pow_right₀ (by norm_num) (by decide)
    obtain ⟨o, ho1, ho2, homin, hoeq⟩ :=
      getOrder_pos (show (1:Int) ≤ size by omega) (by omega)
    have hole : o ≤ MAX_ORDER := homin MAX_ORDER (by decide) h2
    refine ⟨o, ho1, hole, ho2, homin, ?_⟩
    rw [hoeq, if_neg (by exact_mod_cast not_lt.mpr hole)]
  · intro h h30
    have hpos : (0 : Int) < 2 ^ MAX_ORDER := by positivity
    obtain ⟨o, ho1, ho2, homin, hoeq⟩ :=
      getOrder_pos (show (1:Int) ≤ size by omega) h30
    have hgt : (MAX_ORDER : Int) < (o : Int) := by
      by_contra hle
      have hole : o ≤ MAX_ORDER := by exact_mod_cast not_lt.mp hle
      have hmono : (2:Int) ^ o ≤ 2 ^ MAX_ORDER := pow_le_pow_right₀ (by norm_num) hole
      omega
    rw [hoeq, if_pos hgt]

theorem C5_witness :
    (∃ o : Nat, MIN_ORDER ≤ o ∧ o ≤ MAX_ORDER ∧ (4096 : Int) ≤ 2 ^ o ∧
      (∀ k : Nat, MIN_ORDER ≤ k → (4096 : Int) ≤ 2 ^ k → o ≤ k) ∧
      getOrder 4096 = some (o : Int)) ∧
    getOrder (2 ^ MAX_ORDER + 1) = some (-1) ∧
    getOrder (2 ^ 30 + 1) = none :=
  ⟨(C5_getOrder_minimal 4096).1 (by norm_num) (by norm_num [MAX_ORDER]),
   (C5_getOrder_minimal (2 ^ MAX_ORDER + 1)).2.1 (by norm_num [MAX_ORDER])
     (by norm_num [MAX_ORDER]),
   (C5_getOrder_minimal (2 ^ 30 + 1)).2.2 (by norm_num)⟩

/-- Counterexample to the unamended C5 failure half: `2^30 + 1` is a valid
`int` request larger than `2^MAX_ORDER`, yet `getOrder` does not return the
failure value `-1` (or any value): the loop runs into the undefined
`1 << 31`. -/
theorem C5_counterexample :
    (2 : Int) ^ MAX_ORDER < 2 ^ 30 + 1 ∧ getOrder (2 ^ 30 + 1) = none ∧
      ∀ v : Int, getOrder (2 ^ 30 + 1) ≠ some v := by
  have hnone : getOrder ((2 : Int) ^ 30 + 1) = none := getOrder_big (lt_add_one _)
  refine ⟨by norm_num [MAX_ORDER], hnone, ?_⟩
  intro v hv
  rw [hnone] at hv
  exact Option.noConfusion hv

/-- C6: on any state satisfying the allocator invariant, `splitBlock` called
on a free block head `i` of order `cur` with target order
`endO ∈ [MIN_ORDER, cur]` removes the original block from the free set,
registers the right (buddy) half at every intermediate order from `cur - 1`
down to `endO` as free, leaves a block of exactly order `endO` at the same
starting page `i` in the partition, returns the address of page `i`, and
the returned block is a member of no free list. -/
theorem C6_splitBlock_correct (s : BuddyState) (P F : List Block) (cur endO i : Nat)
    (hI : InvState s P F) (hiF : (i, cur) ∈ F)
    (h1 : MIN_ORDER ≤ endO) (h2 : endO ≤ cur) :
    ∃ s', splitBlock s cur endO i = some (PAGE_TO_ADDR i, s') ∧
      ∃ P' F', InvCore s' P' F' ∧
        (i, cur) ∉ F' ∧
        (∀ o', endO ≤ o' → o' < cur → (i ^^^ 2 ^ (o' - MIN_ORDER), o') ∈ F') ∧
        (i, endO) ∈ P' ∧
        ∀ o', i ∉ getFL s'.freeArea o' := by
  obtain ⟨hC, hN⟩ := hI
  have hEx : NoBuddyPairExcept F i cur := fun b hb hbud => absurd hbud (hN b hb)
  obtain ⟨s', heq, hmem, P', F', hC', hN', hPiff, hFiff⟩ :=
    splitBlock_spec cur s P F endO i hC hEx hiF h1 h2
  have hiP : (i, cur) ∈ P := hC.sub _ hiF
  have hicur : ∀ o'', (i, o'') ∈ P → o'' = cur := by
    intro o'' hmem'
    have hu := hC.head_unique hmem' hiP rfl
    injection hu with u1 u2
  have hxne : ∀ k : Nat, i ^^^ 2 ^ k ≠ i := by
    intro k hk
    have hc := congrArg (fun x => x ^^^ i) hk
    simp only at hc
    rw [Nat.xor_comm i (2 ^ k), Nat.xor_assoc, Nat.xor_self, Nat.xor_zero] at hc
    have h3 : 0 < (2:Nat) ^ k := Nat.pos_pow_of_pos _ (by norm_num)
    omega
  refine ⟨s', heq, P', F', hC', ?_, ?_, ?_, ?_⟩
  · intro hmem'
    rcases (hFiff _).mp hmem' with ⟨-, hne⟩ | ⟨o', ho'1, ho'2, heq'⟩
    · exact hne rfl
    · injection heq' with e1 e2
      exact absurd e1.symm (hxne _)
  · intro o' ho'1 ho'2
    exact (hFiff _).mpr (Or.inr ⟨o', ho'1, ho'2, rfl⟩)
  · exact (hPiff _).mpr (Or.inr (Or.inl rfl))
  · intro o' hmem'
    by_cases ho' : o' ≤ MAX_ORDER
    · have hiF' : (i, o') ∈ F' := (hC'.flist_iff ho').mp hmem'
      rcases (hFiff _).mp hiF' with ⟨hiF2, hne⟩ | ⟨o'', ho''1, ho''2, heq'⟩
      · have hoc := hicur o' (hC.sub _ hiF2)
        exact hne (by rw [hoc])
      · injection heq' with e1 e2
        exact absurd e1.symm (hxne _)
    · have hlenle : s'.freeArea.length ≤ o' := by
        rw [hC'.lenFA]
        omega
      rw [getFL_of_length_le hlenle] at hmem'
      exact absurd hmem' (List.not_mem_nil _)

theorem C6_witness : ∃ s', splitBlock buddy_init 20 13 0 = some (PAGE_TO_ADDR 0, s') ∧
    ∃ P' F', InvCore s' P' F' ∧
      ((0 : Nat), (20 : Nat)) ∉ F' ∧
      (∀ o', 13 ≤ o' → o' < 20 → ((0 : Nat) ^^^ 2 ^ (o' - MIN_ORDER), o') ∈ F') ∧
      ((0 : Nat), (13 : Nat)) ∈ P' ∧
      ∀ o', (0 : Nat) ∉ getFL s'.freeArea o' :=
  C6_splitBlock_correct buddy_init [(0, MAX_ORDER)] [(0, MAX_ORDER)] 20 13 0
    InvState_init (by decide) (by decide) (by decide)

/-- C7: no state reachable by a complete operation holds two free buddy
blocks in the same order's free list: the fresh `buddy_init` state, the
state after any `buddy_alloc` call from an invariant state, and the state
after any `buddy_free` call of an allocated block's address all satisfy
`NoFreeBuddies` (a pair arising mid-free is merged before the call
returns). -/
theorem C7_no_free_buddy_pairs :
    NoFreeBuddies buddy_init ∧
    (∀ s P F size res, InvState s P F →
      buddy_alloc size s = some res → NoFreeBuddies res.2) ∧
    (∀ s P F p o s', InvState s P F → (p, o) ∈ P → (p, o) ∉ F →
      buddy_free (some (PAGE_TO_ADDR p)) s = some s' → NoFreeBuddies s') := by
  refine ⟨noFreeBuddies_of_inv InvState_init, ?_, ?_⟩
  · intro s P F size res hI hcall
    rcases buddy_alloc_spec s P F size res hI hcall with heq |
      ⟨i, t, f, -, -, -, -, -, -, -, P', F', hI', -, -, -⟩
    · rw [heq]
      exact noFreeBuddies_of_inv hI
    · exact noFreeBuddies_of_inv hI'
  · intro s P F p o s' hI hpP hpF hcall
    obtain ⟨s'', heq2, -, P', F', hI', -⟩ := buddy_free_spec s P F p o hI hpP hpF
    rw [heq2] at hcall
    injection hcall with hcall
    rw [← hcall]
    exact noFreeBuddies_of_inv hI'

theorem C7_witness : NoFreeBuddies s5000 :=
  C7_no_free_buddy_pairs.2.1 buddy_init [(0, MAX_ORDER)] [(0, MAX_ORDER)] 5000
    (some a5000, s5000) InvState_init rfl

/-- C8: the spec requires the order computation (and hence `buddy_alloc`)
to be total on sizes `≤ 0`, either rejecting them or treating them as
minimum-order requests.  The code is not: for every `size ≤ 0` the
`getOrder` loop never produces a result at any fuel (for `size = 0` every
iteration divides by zero; for `size < 0` every quotient is nonpositive, so
the loop runs until the shift itself becomes the undefined `1 << 31`), so
`getOrder` and `buddy_alloc` are undefined (`none`) rather than returning
an error or an order. -/
theorem C8_nonpositive_size_diverges (size : Int) (h : size ≤ 0) :
    (∀ fuel order, getOrderAux size order fuel = none) ∧
    getOrder size = none ∧
    ∀ s : BuddyState, buddy_alloc size s = none := by
  refine ⟨fun fuel order => getOrderAux_nonpos h fuel order, getOrder_nonpos h, ?_⟩
  intro s
  unfold buddy_alloc
  rw [getOrder_nonpos h]

theorem C8_witness :
    getOrder 0 = none ∧ buddy_alloc 0 buddy_init = none ∧
      getOrderAux 0 MIN_ORDER 5 = none :=
  ⟨(C8_nonpositive_size_diverges 0 (by decide)).2.1,
   (C8_nonpositive_size_diverges 0 (by decide)).2.2 buddy_init,
   (C8_nonpositive_size_diverges 0 (by decide)).1 5 MIN_ORDER⟩

/-- C9: `splitBlock`, `buddy_alloc` and `buddy_free` neither read nor write
the arena bytes: whenever a call returns, the `mem` component of the result
equals that of the input state, and replacing the arena bytes by any other
function `m` (via `setMem`) commutes with each operation, so no decision of
the operations depends on the arena contents. -/
theorem C9_arena_frame :
    (∀ s cur endO i r, splitBlock s cur endO i = some r → r.2.mem = s.mem) ∧
    (∀ s cur endO i m, splitBlock (setMem s m) cur endO i =
      Option.map (fun r => (r.1, setMem r.2 m)) (splitBlock s cur endO i)) ∧
    (∀ size s res, buddy_alloc size s = some res → res.2.mem = s.mem) ∧
    (∀ size s m, buddy_alloc size (setMem s m) =
      Option.map (fun r => (r.1, setMem r.2 m)) (buddy_alloc size s)) ∧
    (∀ addr s t, buddy_free addr s = some t → t.mem = s.mem) ∧
    (∀ addr s m, buddy_free addr (setMem s m) =
      Option.map (fun t => setMem t m) (buddy_free addr s)) := by
  refine ⟨fun s cur endO i r h => splitBlock_mem cur s endO i r h,
    fun s cur endO i m => splitBlock_setMem cur s endO i m,
    buddy_alloc_mem, buddy_alloc_setMem, ?_, ?_⟩
  · intro addr s t h
    cases addr with
    | none =>
      have h' : s = t := Option.some.inj h
      rw [h']
    | some a => exact buddy_freeAux_mem 32 a s t h
  · intro addr s m
    cases addr with
    | none => rfl
    | some a => exact buddy_freeAux_setMem 32 a s m

theorem C9_witness : s5000.mem = buddy_init.mem :=
  C9_arena_frame.2.2.1 5000 buddy_init (some a5000, s5000) rfl

/-- C10: `buddy_free` called with a null address is a no-op: for every
allocator state the source returns immediately (the `if (addr)` guard
fails), leaving the page descriptor table and every free list unchanged. -/
theorem C10_free_null_noop (s : BuddyState) : buddy_free none s = some s := rfl
